import Mathlib

/-!
SqlMemInspector: a shallow embedding of the snapshot writer.

The development embeds `SqlMemInspector.c` and `include/sqlmem_types.h`.

* The caller's output buffer is a byte memory `Mem` (offset to byte value); every store of the
  C code is a store into that memory at the offset the structure layout gives it.
* Machine integers are natural numbers reduced modulo `2 ^ 32` or `2 ^ 64` where the C code
  can wrap (`ULONG`, `ULONGLONG`); `size_t` is 64 bits wide (x64 build of the driver).
* The kernel services the driver calls (`MmGetPhysicalMemoryRanges`,
  `ZwQuerySystemInformation`, `PsLookupProcessByProcessId`, ...) are read from an `Env`
  record holding what each of them answers.
-/

namespace SqlMem

/-! ## Status codes and platform constants (ntstatus.h, wdm.h) -/

def STATUS_SUCCESS : Nat := 0x00000000
def STATUS_INFO_LENGTH_MISMATCH : Nat := 0xC0000004
def STATUS_INVALID_PARAMETER : Nat := 0xC000000D
def STATUS_INVALID_DEVICE_REQUEST : Nat := 0xC0000010
def STATUS_BUFFER_TOO_SMALL : Nat := 0xC0000023
def STATUS_INSUFFICIENT_RESOURCES : Nat := 0xC000009A

/-- The macro `NT_SUCCESS(status)`: the status, read as a signed 32-bit value, is not negative. -/
def NT_SUCCESS (status : Nat) : Bool := decide (status < 0x80000000)

def PAGE_SIZE : Nat := 0x1000
def SE_LOCK_MEMORY_PRIVILEGE : Nat := 4
def SE_PRIVILEGE_ENABLED_BY_DEFAULT : Nat := 0x00000001
def SE_PRIVILEGE_ENABLED : Nat := 0x00000002

def FILE_DEVICE_UNKNOWN : Nat := 0x00000022
def METHOD_BUFFERED : Nat := 0
def FILE_ANY_ACCESS : Nat := 0

/-- The macro `CTL_CODE(DeviceType, Function, Method, Access)`. -/
def CTL_CODE (deviceType function method access : Nat) : Nat :=
  (deviceType <<< 16) ||| (access <<< 14) ||| (function <<< 2) ||| method

def IOCTL_SQLMEM_GET_SUMMARY : Nat :=
  CTL_CODE FILE_DEVICE_UNKNOWN 0x801 METHOD_BUFFERED FILE_ANY_ACCESS

def SQLMEM_SUMMARY_VERSION : Nat := 1

/-! ## Layout of `SQLMEM_PROCESS_ENTRY` and `SQLMEM_SUMMARY` (natural alignment) -/

namespace Entry
def Pid : Nat := 0
def ImageName : Nat := 4
/-- Number of `WCHAR`s of `ImageName[64]`. -/
def ImageNameCch : Nat := 64
def WorkingSetBytes : Nat := 136
def PrivateBytes : Nat := 144
def LockedBytes : Nat := 152
def LargePageBytes : Nat := 160
def HasLockPagesPrivilege : Nat := 168
def IsSqlServer : Nat := 169
def IsVmmemOrVm : Nat := 170
def LockedBytesAreExact : Nat := 171
def LargePageBytesAreExact : Nat := 172
end Entry

/-- The value of `sizeof(SQLMEM_PROCESS_ENTRY)`: 173 bytes of fields, padded to a multiple of 8. -/
def entrySize : Nat := 176

namespace Summary
def Version : Nat := 0
def ProcessCount : Nat := 4
def TotalPhysBytes : Nat := 8
def AvailPhysBytes : Nat := 16
def KernelNonPagedBytes : Nat := 24
def KernelPagedBytes : Nat := 32
def SystemCacheBytes : Nat := 40
def UsesForensicPfns : Nat := 48
def Reserved : Nat := 52
end Summary

/-- The value of `FIELD_OFFSET(SQLMEM_SUMMARY, Entries)`: the size of the fixed header. -/
def headerSize : Nat := 56

/-- The value of `sizeof(SQLMEM_SUMMARY)`: the header and the one entry of `Entries[ANYSIZE_ARRAY]`. -/
def summarySize : Nat := headerSize + entrySize

/-! ## Byte memory -/

/-- The output buffer: the byte stored at each offset from the buffer pointer. -/
abbrev Mem := Nat → Nat

/-- Store the bytes `bs` at offsets `off, off + 1, ...`. -/
def storeBytes (m : Mem) (off : Nat) (bs : List Nat) : Mem :=
  fun a => if off ≤ a ∧ a < off + bs.length then bs.getD (a - off) 0 else m a

/-- The `n` little-endian bytes of `v` (the value is truncated to `n` bytes). -/
def leBytes : Nat → Nat → List Nat
  | 0, _ => []
  | n + 1, v => (v % 256) :: leBytes n (v / 256)

/-- Store an `n`-byte little-endian integer field. -/
def storeLE (m : Mem) (off n v : Nat) : Mem := storeBytes m off (leBytes n v)

/-- Load an `n`-byte little-endian integer field. -/
def loadLE (m : Mem) (off : Nat) : Nat → Nat
  | 0 => 0
  | n + 1 => m off + 256 * loadLE m (off + 1) n

/-- The bytes of a sequence of `WCHAR`s. -/
def wcharBytes : List Nat → List Nat
  | [] => []
  | c :: cs => leBytes 2 c ++ wcharBytes cs

/-- Load the `i`-th `WCHAR` of the array that starts at `off`. -/
def loadWCHAR (m : Mem) (off i : Nat) : Nat := loadLE m (off + 2 * i) 2

/-- The routine `RtlZeroMemory(Destination, Length)`. -/
def RtlZeroMemory (m : Mem) (off len : Nat) : Mem :=
  fun a => if off ≤ a ∧ a < off + len then 0 else m a

/-! ## Data the kernel hands to the driver -/

/-- A counted string: `Length` is in bytes, `Buffer` is `none` for a null pointer and otherwise
the `WCHAR`s found at the pointer. -/
structure UNICODE_STRING where
  Length : Nat
  Buffer : Option (List Nat)

/-- One element of the array `MmGetPhysicalMemoryRanges` returns. -/
structure PHYSICAL_MEMORY_RANGE where
  BaseAddress : Nat
  NumberOfBytes : Nat

structure LUID where
  LowPart : Nat
  HighPart : Nat
deriving DecidableEq

structure LUID_AND_ATTRIBUTES where
  Luid : LUID
  Attributes : Nat

/-- A primary token, seen through `SeQueryInformationToken(token, TokenPrivileges, &privileges)`:
the status of the query and the privilege array it hands back (`none` for a null pointer; the
length of the list is `PrivilegeCount`). -/
structure Token where
  queryStatus : Nat
  privileges : Option (List LUID_AND_ATTRIBUTES)

/-- A process object, seen through `PsReferencePrimaryToken` (`none` for a null token). -/
structure Process where
  token : Option Token

/-- The answer of `PsLookupProcessByProcessId`: the status and the process object. -/
structure Lookup where
  status : Nat
  process : Process

/-- The fields of a `SYSTEM_PROCESS_INFORMATION` record the driver reads. `NextEntryOffset` is
represented by the position of the record in the chain: it is zero exactly at the last record. -/
structure SYSTEM_PROCESS_INFORMATION where
  UniqueProcessId : Nat
  ImageName : UNICODE_STRING
  WorkingSetSize : Nat
  PrivatePageCount : Nat

/-- The page counters of `SYSTEM_PERFORMANCE_INFORMATION` the driver reads. -/
structure SYSTEM_PERFORMANCE_INFORMATION where
  AvailablePages : Nat
  NonPagedPoolPages : Nat
  PagedPoolPages : Nat
  ResidentSystemCachePage : Nat

/-- One round of the query loop: the pool allocation fails, or
`ZwQuerySystemInformation(SystemProcessInformation, ...)` answers with a status, the size it
needs and the chain of records it left in the scratch buffer (a first record and the records
that follow it). -/
inductive QueryAttempt where
  | allocFailed
  | reply (status bytesNeeded : Nat) (first : SYSTEM_PROCESS_INFORMATION)
      (rest : List SYSTEM_PROCESS_INFORMATION)

/-- What the kernel answers during one request. -/
structure Env where
  /-- Result of `MmGetPhysicalMemoryRanges`: `none` for null, otherwise the array. -/
  physicalRanges : Option (List PHYSICAL_MEMORY_RANGE)
  /-- Status and data of `ZwQuerySystemInformation(SystemPerformanceInformation, ...)`. -/
  perfStatus : Nat
  perfInfo : SYSTEM_PERFORMANCE_INFORMATION
  /-- Status and `NumberOfPhysicalPages` of `ZwQuerySystemInformation(SystemBasicInformation, ...)`. -/
  basicStatus : Nat
  NumberOfPhysicalPages : Nat
  /-- The successive rounds of the process-list query, each depending on the scratch size. -/
  processQueries : List (Nat → QueryAttempt)
  /-- The answer of `PsLookupProcessByProcessId` for each process id. -/
  lookupProcess : Nat → Lookup
  /-- The upcase table of the system for the characters above `z`. -/
  upcaseTable : Nat → Nat

/-! ## String routines of the kernel (ntstrsafe.h, ntrtl) -/

/-- The copy loop of `RtlStringCopyWorkerW`: copy while room remains in the destination,
characters remain to copy and the source character is not NUL. -/
def RtlStringCopyWorkerW : Nat → List Nat → Nat → List Nat
  | 0, _, _ => []
  | _ + 1, [], _ => []
  | cchDest + 1, c :: cs, cchToCopy =>
    if cchToCopy = 0 ∨ c = 0 then [] else c :: RtlStringCopyWorkerW cchDest cs (cchToCopy - 1)

/-- The routine `RtlStringCchCopyNW(pszDest, cchDest, pszSrc, cchToCopy)` for a valid destination:
the `WCHAR`s it stores from `pszDest` on, terminator included. When the destination is filled
the last character copied is replaced by the terminator. -/
def RtlStringCchCopyNW (cchDest : Nat) (src : List Nat) (cchToCopy : Nat) : List Nat :=
  let copied := RtlStringCopyWorkerW cchDest src cchToCopy
  if cchDest = 0 then []
  else if copied.length = cchDest then copied.dropLast ++ [0] else copied ++ [0]

/-- The routine `RtlStringCchCopyW(pszDest, cchDest, pszSrc)`: copy up to the NUL of the source. -/
def RtlStringCchCopyW (cchDest : Nat) (src : List Nat) : List Nat :=
  RtlStringCchCopyNW cchDest src src.length

/-- The routine `RtlUpcaseUnicodeChar`: below `a` unchanged, `a` to `z` shifted to `A` to `Z`,
above `z` looked up in the upcase table. -/
def RtlUpcaseUnicodeChar (table : Nat → Nat) (c : Nat) : Nat :=
  if c < 0x61 then c else if c ≤ 0x7A then c - 0x20 else table c

/-- The comparison loop of `RtlEqualUnicodeString` over `n` characters, ignoring case. -/
def equalUpcased (table : Nat → Nat) : Nat → List Nat → List Nat → Bool
  | 0, _, _ => true
  | n + 1, s1, s2 =>
    RtlUpcaseUnicodeChar table (s1.headD 0) == RtlUpcaseUnicodeChar table (s2.headD 0)
      && equalUpcased table n s1.tail s2.tail

/-- The routine `RtlEqualUnicodeString(String1, String2, TRUE)`: equal byte lengths and equal
characters after upcasing. -/
def RtlEqualUnicodeString (table : Nat → Nat) (s1 s2 : UNICODE_STRING) : Bool :=
  s1.Length == s2.Length &&
    equalUpcased table (s1.Length / 2) (s1.Buffer.getD []) (s2.Buffer.getD [])

/-- The routine `RtlInitUnicodeString(&target, Target)` for a literal: the characters up to the
first NUL. -/
def RtlInitUnicodeString (literal : List Nat) : UNICODE_STRING :=
  let chars := literal.takeWhile (fun c => c != 0)
  { Length := chars.length * 2, Buffer := some chars }

/-- The literal `L"sqlservr.exe"`. -/
def L_sqlservr_exe : List Nat :=
  [0x73, 0x71, 0x6C, 0x73, 0x65, 0x72, 0x76, 0x72, 0x2E, 0x65, 0x78, 0x65]

/-- The literal `L"vmmem"`. -/
def L_vmmem : List Nat := [0x76, 0x6D, 0x6D, 0x65, 0x6D]

/-- The literal `L"vmwp.exe"`. -/
def L_vmwp_exe : List Nat := [0x76, 0x6D, 0x77, 0x70, 0x2E, 0x65, 0x78, 0x65]

/-- The literal `L"<System>"`. -/
def L_System : List Nat := [0x3C, 0x53, 0x79, 0x73, 0x74, 0x65, 0x6D, 0x3E]

/-! ## SqlmemImageNameEquals -/

/-- The backward scan of `SqlmemImageNameEquals`: `i` runs from `lengthInChars` down to 1 and the
scan stops at the first `\`, `/` or `:`; the result is `startIndex`. -/
def findStartIndex (buffer : List Nat) : Nat → Nat
  | 0 => 0
  | i + 1 =>
    let ch := buffer.getD i 0
    if ch = 0x5C ∨ ch = 0x2F ∨ ch = 0x3A then i + 1 else findStartIndex buffer i

def SqlmemImageNameEquals (table : Nat → Nat) (ImageName : Option UNICODE_STRING)
    (Target : List Nat) : Bool :=
  match ImageName with
  | none => false
  | some name =>
    match name.Buffer with
    | none => false
    | some buffer =>
      if name.Length = 0 then false
      else
        let lengthInChars := (name.Length / 2) % 2 ^ 16
        let startIndex := findStartIndex buffer lengthInChars
        let baseName : UNICODE_STRING :=
          { Length := ((lengthInChars - startIndex) * 2) % 2 ^ 16,
            Buffer := some (buffer.drop startIndex) }
        if baseName.Length = 0 then false
        else RtlEqualUnicodeString table baseName (RtlInitUnicodeString Target)

/-! ## SqlmemProcessHasLockPagesPrivilege -/

/-- The routine `RtlConvertUlongToLuid`. -/
def RtlConvertUlongToLuid (v : Nat) : LUID := { LowPart := v, HighPart := 0 }

/-- The scan of the privilege array: true at the first entry that carries the LUID and has one
of the two attribute bits; an entry with the LUID and neither bit does not end the scan. -/
def scanPrivileges (lockMemoryLuid : LUID) : List LUID_AND_ATTRIBUTES → Bool
  | [] => false
  | privilege :: rest =>
    if privilege.Luid = lockMemoryLuid then
      if privilege.Attributes &&& (SE_PRIVILEGE_ENABLED ||| SE_PRIVILEGE_ENABLED_BY_DEFAULT) ≠ 0
      then true
      else scanPrivileges lockMemoryLuid rest
    else scanPrivileges lockMemoryLuid rest

def SqlmemProcessHasLockPagesPrivilege (env : Env) (ProcessId : Nat) : Bool :=
  let found := env.lookupProcess ProcessId
  if !NT_SUCCESS found.status then false
  else
    let lockMemoryLuid := RtlConvertUlongToLuid SE_LOCK_MEMORY_PRIVILEGE
    match found.process.token with
    | none => false
    | some token =>
      match token.privileges with
      | none => false
      | some privileges =>
        if NT_SUCCESS token.queryStatus then scanPrivileges lockMemoryLuid privileges else false

/-! ## SqlmemEnumerateProcesses -/

/-- The summing loop over the physical ranges: it runs up to the first element whose base and
length are both zero, adding the lengths in a `ULONGLONG`. -/
def sumPhysicalRanges : List PHYSICAL_MEMORY_RANGE → Nat → Nat
  | [], totalPhysBytes => totalPhysBytes
  | current :: next, totalPhysBytes =>
    if current.BaseAddress ≠ 0 ∨ current.NumberOfBytes ≠ 0 then
      sumPhysicalRanges next ((totalPhysBytes + current.NumberOfBytes) % 2 ^ 64)
    else totalPhysBytes

/-- The value of `totalPhysBytes` after the range loop (lines 122 to 131). -/
def rangeTotal (env : Env) : Nat :=
  match env.physicalRanges with
  | none => 0
  | some ranges => sumPhysicalRanges ranges 0

/-- The value of `totalPhysBytes` stored in the header (lines 151 to 162). -/
def totalPhysBytes (env : Env) : Nat :=
  if rangeTotal env = 0 then
    if NT_SUCCESS env.basicStatus then (env.NumberOfPhysicalPages % 2 ^ 32 * PAGE_SIZE) % 2 ^ 64
    else 0
  else rangeTotal env

/-- A page counter converted to bytes: `(ULONGLONG)pages * PAGE_SIZE`. -/
def pagesToBytes (pages : Nat) : Nat := (pages % 2 ^ 32 * PAGE_SIZE) % 2 ^ 64

/-- The header stores of lines 120 to 164. -/
def writeHeader (env : Env) (m : Mem) : Mem :=
  let m := storeLE m Summary.Version 4 SQLMEM_SUMMARY_VERSION
  let m := storeLE m Summary.ProcessCount 4 0
  let m :=
    if NT_SUCCESS env.perfStatus then
      let m := storeLE m Summary.AvailPhysBytes 8 (pagesToBytes env.perfInfo.AvailablePages)
      let m := storeLE m Summary.KernelNonPagedBytes 8 (pagesToBytes env.perfInfo.NonPagedPoolPages)
      let m := storeLE m Summary.KernelPagedBytes 8 (pagesToBytes env.perfInfo.PagedPoolPages)
      storeLE m Summary.SystemCacheBytes 8 (pagesToBytes env.perfInfo.ResidentSystemCachePage)
    else
      let m := storeLE m Summary.AvailPhysBytes 8 0
      let m := storeLE m Summary.KernelNonPagedBytes 8 0
      let m := storeLE m Summary.KernelPagedBytes 8 0
      storeLE m Summary.SystemCacheBytes 8 0
  let m := storeLE m Summary.TotalPhysBytes 8 (totalPhysBytes env)
  let m := storeLE m Summary.UsesForensicPfns 1 0
  storeLE m Summary.Reserved 4 0

/-- Where the query loop of lines 168 to 185 stands when the scripted rounds are used up. -/
inductive Acquired where
  /-- Every scripted round answered `STATUS_INFO_LENGTH_MISMATCH`: the loop is still retrying. -/
  | retrying
  /-- The loop has ended with this status and this scratch buffer (`none` for null). -/
  | done (status : Nat)
      (processInfo : Option (SYSTEM_PROCESS_INFORMATION × List SYSTEM_PROCESS_INFORMATION))

/-- The initial scratch size of line 166: 256 KB. -/
def initialBufferLength : Nat := 1 <<< 18

/-- The query loop of lines 168 to 185, started with `bufferLength`. -/
def queryProcessList : List (Nat → QueryAttempt) → Nat → Acquired
  | [], _ => Acquired.retrying
  | round :: later, bufferLength =>
    match round bufferLength with
    | QueryAttempt.allocFailed => Acquired.done STATUS_INSUFFICIENT_RESOURCES none
    | QueryAttempt.reply status bytesNeeded first rest =>
      if status = STATUS_INFO_LENGTH_MISMATCH then
        queryProcessList later ((bytesNeeded % 2 ^ 32 + 2 ^ 12) % 2 ^ 32)
      else Acquired.done status (some (first, rest))

/-- The `WCHAR`s the copy call of lines 210 to 221 stores from `entry->ImageName` on. -/
def imageNameChars (imageName : UNICODE_STRING) : List Nat :=
  match imageName.Buffer with
  | some buffer =>
    if imageName.Length > 0 then
      let truncatedLength :=
        if imageName.Length ≥ Entry.ImageNameCch * 2 then Entry.ImageNameCch * 2 - 2
        else imageName.Length
      RtlStringCchCopyNW Entry.ImageNameCch buffer (truncatedLength / 2)
    else RtlStringCchCopyW Entry.ImageNameCch L_System
  | none => RtlStringCchCopyW Entry.ImageNameCch L_System

/-- The stores of one round of the walk (lines 204 to 234) for the record `spi`, with
`processCount` already incremented. -/
def writeEntry (env : Env) (m : Mem) (processCount : Nat)
    (spi : SYSTEM_PROCESS_INFORMATION) : Mem :=
  let entry := headerSize + ((processCount + 2 ^ 32 - 1) % 2 ^ 32) * entrySize
  let m := RtlZeroMemory m entry entrySize
  let m := storeLE m (entry + Entry.Pid) 4 spi.UniqueProcessId
  let imageName := spi.ImageName
  let m := storeBytes m (entry + Entry.ImageName) (wcharBytes (imageNameChars imageName))
  let m := storeLE m (entry + Entry.WorkingSetBytes) 8 spi.WorkingSetSize
  let m := storeLE m (entry + Entry.PrivateBytes) 8 spi.PrivatePageCount
  let m := storeLE m (entry + Entry.HasLockPagesPrivilege) 1
    (if SqlmemProcessHasLockPagesPrivilege env spi.UniqueProcessId then 1 else 0)
  let m :=
    if SqlmemImageNameEquals env.upcaseTable (some imageName) L_sqlservr_exe then
      storeLE m (entry + Entry.IsSqlServer) 1 1
    else m
  if SqlmemImageNameEquals env.upcaseTable (some imageName) L_vmmem ||
      SqlmemImageNameEquals env.upcaseTable (some imageName) L_vmwp_exe then
    storeLE m (entry + Entry.IsVmmemOrVm) 1 1
  else m

/-- The local state of the walk: the buffer, `processCount` and `status`. -/
structure WalkState where
  buffer : Mem
  processCount : Nat
  status : Nat

/-- The walk of lines 195 to 240 from the record `spi`, followed by the records `rest`. -/
def walk (env : Env) (OutputLength : Nat) :
    SYSTEM_PROCESS_INFORMATION → List SYSTEM_PROCESS_INFORMATION → WalkState → WalkState
  | spi, rest, s =>
    let processCount := (s.processCount + 1) % 2 ^ 32
    if (headerSize + processCount * entrySize) % 2 ^ 64 > OutputLength then
      { s with processCount := processCount, status := STATUS_BUFFER_TOO_SMALL }
    else
      let s := { s with processCount := processCount,
                        buffer := writeEntry env s.buffer processCount spi }
      match rest with
      | [] => s
      | next :: rest => walk env OutputLength next rest s

/-- What a call of `SqlmemEnumerateProcesses` leaves behind. -/
structure Outcome where
  /-- The returned status; `none` when the query loop is still retrying. -/
  status : Option Nat
  /-- The output buffer (`none` for a null pointer). -/
  buffer : Option Mem
  /-- The value at `BytesWritten` (`none` for a null pointer). -/
  bytesWritten : Option Nat

/-- The function `SqlmemEnumerateProcesses(OutputBuffer, OutputLength, BytesWritten)`.
`OutputBuffer` is `none` for a null pointer; `BytesWritten` is `none` for a null pointer and
otherwise the value the pointed variable holds at the call. -/
def SqlmemEnumerateProcesses (env : Env) (OutputBuffer : Option Mem) (OutputLength : Nat)
    (BytesWritten : Option Nat) : Outcome :=
  match OutputBuffer, BytesWritten with
  | none, _ => ⟨some STATUS_INVALID_PARAMETER, OutputBuffer, BytesWritten⟩
  | _, none => ⟨some STATUS_INVALID_PARAMETER, OutputBuffer, BytesWritten⟩
  | some summary, some bytesWritten =>
    if OutputLength < summarySize then
      ⟨some STATUS_BUFFER_TOO_SMALL, some summary, some bytesWritten⟩
    else
      let summary := writeHeader env summary
      match queryProcessList env.processQueries initialBufferLength with
      | Acquired.retrying => ⟨none, some summary, some bytesWritten⟩
      | Acquired.done status none => ⟨some status, some summary, some bytesWritten⟩
      | Acquired.done status (some (first, rest)) =>
        if !NT_SUCCESS status then ⟨some status, some summary, some bytesWritten⟩
        else
          let s := walk env OutputLength first rest ⟨summary, 0, status⟩
          if NT_SUCCESS s.status then
            ⟨some s.status,
              some (storeLE s.buffer Summary.ProcessCount 4 s.processCount),
              some ((headerSize + s.processCount * entrySize) % 2 ^ 64 % 2 ^ 32)⟩
          else ⟨some s.status, some s.buffer, some 0⟩

/-- The function `SqlmemCaptureSummary`. -/
def SqlmemCaptureSummary (env : Env) (OutputBuffer : Option Mem) (OutputLength : Nat)
    (BytesWritten : Option Nat) : Outcome :=
  SqlmemEnumerateProcesses env OutputBuffer OutputLength BytesWritten

/-! ## SqlmemDeviceControl -/

/-- The parts of the request `SqlmemDeviceControl` reads. -/
structure Irp where
  IoControlCode : Nat
  OutputBufferLength : Nat
  /-- The field `AssociatedIrp.SystemBuffer` (`none` for a null pointer). -/
  SystemBuffer : Option Mem

structure IO_STATUS_BLOCK where
  Status : Nat
  Information : Nat

/-- The request after `SqlmemDeviceControl`: the completion status block (`none` while the
summary call has not returned) and the system buffer. -/
structure Completed where
  IoStatus : Option IO_STATUS_BLOCK
  SystemBuffer : Option Mem

def SqlmemDeviceControl (env : Env) (irp : Irp) : Completed :=
  let bytesWritten := 0
  if irp.IoControlCode = IOCTL_SQLMEM_GET_SUMMARY then
    let r := SqlmemCaptureSummary env irp.SystemBuffer irp.OutputBufferLength (some bytesWritten)
    match r.status with
    | none => ⟨none, r.buffer⟩
    | some status => ⟨some ⟨status, r.bytesWritten.getD bytesWritten⟩, r.buffer⟩
  else
    ⟨some ⟨STATUS_INVALID_DEVICE_REQUEST, bytesWritten⟩, irp.SystemBuffer⟩

/-! ## Notions of the specification -/

/-- The characters of a counted string: the first `Length / 2` characters found at `Buffer`,
none for a null buffer. -/
def nameChars (name : UNICODE_STRING) : List Nat :=
  match name.Buffer with
  | none => []
  | some buffer => buffer.take (name.Length / 2)

/-- A counted string is well formed when its length fits a `USHORT` and its buffer holds the
characters the length announces. -/
def WellFormed (name : UNICODE_STRING) : Prop :=
  name.Length < 2 ^ 16 ∧ ∀ buffer, name.Buffer = some buffer → name.Length / 2 ≤ buffer.length

/-- A path separator: backslash, forward slash or colon. -/
def isPathSeparator (c : Nat) : Bool := c == 0x5C || c == 0x2F || c == 0x3A

/-- The base name in the words of the specification: the text after the last path separator. -/
def baseNameSpec (chars : List Nat) : List Nat :=
  (chars.reverse.takeWhile (fun c => !isPathSeparator c)).reverse

/-- Equality ignoring case in the words of the specification: the two texts are equal once
every character is upcased. -/
def eqIgnoreCase (table : Nat → Nat) (a b : List Nat) : Bool :=
  a.map (RtlUpcaseUnicodeChar table) == b.map (RtlUpcaseUnicodeChar table)

/-- The sum of the byte lengths of the physical ranges up to the sentinel whose base and length
are both zero; zero when the range list is unavailable. -/
def specRangeBytes (ranges : Option (List PHYSICAL_MEMORY_RANGE)) : Nat :=
  match ranges with
  | none => 0
  | some rs =>
    ((rs.takeWhile (fun r => r.BaseAddress != 0 || r.NumberOfBytes != 0)).map
      (fun r => r.NumberOfBytes)).sum

/-- The offset of entry `i` in the output buffer. -/
def entryOffset (i : Nat) : Nat := headerSize + i * entrySize

/-- The number of entries written when the walk has ended: the count on success; on truncation
the count had been incremented for the record that did not fit. -/
def entriesWritten (s : WalkState) : Nat :=
  if NT_SUCCESS s.status then s.processCount else s.processCount - 1

/-! ## Sample inputs -/

/-- The counted string of a text. -/
def ofString (text : String) : UNICODE_STRING :=
  { Length := 2 * text.length, Buffer := some (text.toList.map Char.toNat) }

/-- A process record with the given id and image name. -/
def sampleRecord (pid : Nat) (name : UNICODE_STRING) : SYSTEM_PROCESS_INFORMATION :=
  { UniqueProcessId := pid, ImageName := name, WorkingSetSize := 4096, PrivatePageCount := 8192 }

/-- A token that holds the lock-pages privilege, enabled. -/
def sampleToken : Token :=
  { queryStatus := STATUS_SUCCESS,
    privileges := some [⟨⟨2, 0⟩, 3⟩, ⟨⟨SE_LOCK_MEMORY_PRIVILEGE, 0⟩, SE_PRIVILEGE_ENABLED⟩] }

/-- A machine whose process-list query succeeds at the first round with the given records;
only process 4 can be looked up. -/
def sampleEnv (first : SYSTEM_PROCESS_INFORMATION) (rest : List SYSTEM_PROCESS_INFORMATION) :
    Env :=
  { physicalRanges := some [⟨0x1000, 0x9F000⟩, ⟨0x100000, 0x3FF00000⟩, ⟨0, 0⟩],
    perfStatus := STATUS_SUCCESS,
    perfInfo := ⟨1000, 20, 30, 40⟩,
    basicStatus := STATUS_SUCCESS,
    NumberOfPhysicalPages := 262144,
    processQueries := [fun _ => QueryAttempt.reply STATUS_SUCCESS 0 first rest],
    lookupProcess := fun pid =>
      if pid = 4 then ⟨STATUS_SUCCESS, ⟨some sampleToken⟩⟩ else ⟨STATUS_INVALID_PARAMETER, ⟨none⟩⟩,
    upcaseTable := fun c => c }

/-- A machine whose only physical range has a base and a zero length. -/
def zeroLengthRangeEnv : Env :=
  { sampleEnv (sampleRecord 0 ⟨0, none⟩) [] with
    physicalRanges := some [⟨0x1000, 0⟩, ⟨0, 0⟩],
    NumberOfPhysicalPages := 1 }

/-- A machine whose physical range list is unavailable. -/
def noRangeEnv : Env :=
  { sampleEnv (sampleRecord 0 ⟨0, none⟩) [] with physicalRanges := none }

/-- A machine whose physical range list is unavailable and whose basic-information query
fails. -/
def noRangeNoBasicEnv : Env :=
  { sampleEnv (sampleRecord 0 ⟨0, none⟩) [] with
    physicalRanges := none, basicStatus := STATUS_INVALID_PARAMETER }

/-- A buffer filled with the byte `0xAA`. -/
def sentinelBuffer : Mem := fun _ => 0xAA

/-! ## Memory lemmas -/

theorem leBytes_length (n v : Nat) : (leBytes n v).length = n := by
  induction n generalizing v with
  | zero => rfl
  | succ n ih => simp [leBytes, ih]

theorem wcharBytes_length (cs : List Nat) : (wcharBytes cs).length = 2 * cs.length := by
  induction cs with
  | nil => rfl
  | cons c cs ih => simp [wcharBytes, leBytes_length, ih]; omega

theorem storeBytes_outside (m : Mem) (off : Nat) (bs : List Nat) (a : Nat)
    (h : a < off ∨ off + bs.length ≤ a) : storeBytes m off bs a = m a := by
  unfold storeBytes
  rw [if_neg]
  omega

theorem storeBytes_inside (m : Mem) (off : Nat) (bs : List Nat) (a : Nat)
    (h1 : off ≤ a) (h2 : a < off + bs.length) :
    storeBytes m off bs a = bs.getD (a - off) 0 := by
  unfold storeBytes
  rw [if_pos ⟨h1, h2⟩]

theorem storeBytes_congr (m1 m2 : Mem) (off : Nat) (bs : List Nat) (a : Nat)
    (h : m1 a = m2 a) : storeBytes m1 off bs a = storeBytes m2 off bs a := by
  simp [storeBytes, h]

theorem storeLE_outside (m : Mem) (off n v a : Nat) (h : a < off ∨ off + n ≤ a) :
    storeLE m off n v a = m a := by
  unfold storeLE
  apply storeBytes_outside
  rw [leBytes_length]
  exact h

theorem storeLE_congr (m1 m2 : Mem) (off n v a : Nat) (h : m1 a = m2 a) :
    storeLE m1 off n v a = storeLE m2 off n v a :=
  storeBytes_congr m1 m2 off _ a h

theorem RtlZeroMemory_outside (m : Mem) (off len a : Nat) (h : a < off ∨ off + len ≤ a) :
    RtlZeroMemory m off len a = m a := by
  unfold RtlZeroMemory
  rw [if_neg]
  omega

theorem RtlZeroMemory_inside (m : Mem) (off len a : Nat) (h1 : off ≤ a) (h2 : a < off + len) :
    RtlZeroMemory m off len a = 0 := by
  unfold RtlZeroMemory
  rw [if_pos ⟨h1, h2⟩]

theorem loadLE_congr (m1 m2 : Mem) (off n : Nat)
    (h : ∀ a, off ≤ a → a < off + n → m1 a = m2 a) : loadLE m1 off n = loadLE m2 off n := by
  induction n generalizing off with
  | zero => rfl
  | succ n ih =>
    simp only [loadLE]
    rw [h off (Nat.le_refl _) (by omega), ih (off + 1) (fun a h1 h2 => h a (by omega) (by omega))]

theorem loadLE_storeBytes_leBytes (m : Mem) (off n v : Nat) (tail : List Nat) :
    loadLE (storeBytes m off (leBytes n v ++ tail)) off n = v % 256 ^ n := by
  induction n generalizing off v m tail with
  | zero => simp [loadLE, Nat.mod_one]
  | succ n ih =>
    simp only [loadLE, leBytes]
    have h0 : storeBytes m off (v % 256 :: leBytes n (v / 256) ++ tail) off = v % 256 := by
      rw [storeBytes_inside _ _ _ _ (Nat.le_refl _) (by simp)]
      simp
    have h1 : loadLE (storeBytes m off (v % 256 :: leBytes n (v / 256) ++ tail)) (off + 1) n
        = loadLE (storeBytes m (off + 1) (leBytes n (v / 256) ++ tail)) (off + 1) n := by
      apply loadLE_congr
      intro a ha1 ha2
      rw [storeBytes_inside _ _ _ _ (by omega) (by simp [leBytes_length]; omega),
        storeBytes_inside _ _ _ _ (by omega) (by simp [leBytes_length]; omega)]
      have : a - off = (a - (off + 1)) + 1 := by omega
      rw [this]
      simp
    rw [h0, h1, ih]
    rw [pow_succ, Nat.mul_comm (256 ^ n) 256, Nat.mod_mul]

theorem loadLE_storeLE (m : Mem) (off n v : Nat) :
    loadLE (storeLE m off n v) off n = v % 256 ^ n := by
  have := loadLE_storeBytes_leBytes m off n v []
  simpa [storeLE] using this

/-! ## The stores of one entry -/

theorem RtlStringCopyWorkerW_length_le (cchDest : Nat) (src : List Nat) (cchToCopy : Nat) :
    (RtlStringCopyWorkerW cchDest src cchToCopy).length ≤ cchDest := by
  induction cchDest generalizing src cchToCopy with
  | zero => simp [RtlStringCopyWorkerW]
  | succ d ih =>
    cases src with
    | nil => simp [RtlStringCopyWorkerW]
    | cons c cs =>
      simp only [RtlStringCopyWorkerW]
      split
      · simp
      · simp only [List.length_cons]
        have := ih cs (cchToCopy - 1)
        omega

theorem RtlStringCchCopyNW_length_le (cchDest : Nat) (src : List Nat) (cchToCopy : Nat) :
    (RtlStringCchCopyNW cchDest src cchToCopy).length ≤ cchDest := by
  unfold RtlStringCchCopyNW
  have h := RtlStringCopyWorkerW_length_le cchDest src cchToCopy
  simp only []
  split
  · simp
  · split
    · simp only [List.length_append, List.length_dropLast, List.length_singleton]
      omega
    · simp only [List.length_append, List.length_singleton]
      omega

theorem imageNameChars_length_le (imageName : UNICODE_STRING) :
    (imageNameChars imageName).length ≤ 64 := by
  unfold imageNameChars RtlStringCchCopyW
  split
  · split
    · exact RtlStringCchCopyNW_length_le _ _ _
    · exact RtlStringCchCopyNW_length_le _ _ _
  · exact RtlStringCchCopyNW_length_le _ _ _

theorem entry_index (idx : Nat) (h : idx + 1 < 2 ^ 32) :
    (idx + 1 + 2 ^ 32 - 1) % 2 ^ 32 = idx := by
  omega

/-- Outside the slot of the entry, `writeEntry` leaves the buffer as it was. -/
theorem writeEntry_outside (env : Env) (m : Mem) (idx : Nat) (spi : SYSTEM_PROCESS_INFORMATION)
    (hidx : idx + 1 < 2 ^ 32) (a : Nat)
    (ha : a < headerSize + idx * entrySize ∨ headerSize + (idx + 1) * entrySize ≤ a) :
    writeEntry env m (idx + 1) spi a = m a := by
  have hn := imageNameChars_length_le spi.ImageName
  have hw := wcharBytes_length (imageNameChars spi.ImageName)
  unfold writeEntry
  simp only [entry_index idx hidx]
  simp only [headerSize, entrySize, Entry.Pid, Entry.ImageName, Entry.WorkingSetBytes,
    Entry.PrivateBytes, Entry.HasLockPagesPrivilege, Entry.IsSqlServer, Entry.IsVmmemOrVm] at *
  split_ifs <;>
  simp (disch := omega) only [storeLE_outside, storeBytes_outside, RtlZeroMemory_outside]

/-- Inside the slot of the entry, what `writeEntry` leaves does not depend on the buffer it
started from: the slot is zeroed first. -/
theorem writeEntry_inside (env : Env) (m1 m2 : Mem) (idx : Nat)
    (spi : SYSTEM_PROCESS_INFORMATION) (hidx : idx + 1 < 2 ^ 32) (a : Nat)
    (h1 : headerSize + idx * entrySize ≤ a) (h2 : a < headerSize + (idx + 1) * entrySize) :
    writeEntry env m1 (idx + 1) spi a = writeEntry env m2 (idx + 1) spi a := by
  unfold writeEntry
  simp only [entry_index idx hidx]
  have hz : RtlZeroMemory m1 (headerSize + idx * entrySize) entrySize a
      = RtlZeroMemory m2 (headerSize + idx * entrySize) entrySize a := by
    rw [RtlZeroMemory_inside _ _ _ _ h1 (by simp only [headerSize, entrySize] at *; omega),
      RtlZeroMemory_inside _ _ _ _ h1 (by simp only [headerSize, entrySize] at *; omega)]
  split_ifs <;>
  repeat (first | exact hz | apply storeLE_congr | apply storeBytes_congr)

/-! ## The walk over the process records -/

theorem walk_nil (env : Env) (C : Nat) (spi : SYSTEM_PROCESS_INFORMATION) (s : WalkState) :
    walk env C spi [] s =
      if (headerSize + (s.processCount + 1) % 2 ^ 32 * entrySize) % 2 ^ 64 > C then
        { s with processCount := (s.processCount + 1) % 2 ^ 32, status := STATUS_BUFFER_TOO_SMALL }
      else
        { s with processCount := (s.processCount + 1) % 2 ^ 32,
                 buffer := writeEntry env s.buffer ((s.processCount + 1) % 2 ^ 32) spi } := by
  rw [walk]

theorem walk_cons (env : Env) (C : Nat) (spi next : SYSTEM_PROCESS_INFORMATION)
    (rest : List SYSTEM_PROCESS_INFORMATION) (s : WalkState) :
    walk env C spi (next :: rest) s =
      if (headerSize + (s.processCount + 1) % 2 ^ 32 * entrySize) % 2 ^ 64 > C then
        { s with processCount := (s.processCount + 1) % 2 ^ 32, status := STATUS_BUFFER_TOO_SMALL }
      else
        walk env C next rest
          { s with processCount := (s.processCount + 1) % 2 ^ 32,
                   buffer := writeEntry env s.buffer ((s.processCount + 1) % 2 ^ 32) spi } := by
  rw [walk]

theorem count_no_wrap (n C : Nat) (hinv : headerSize + n * entrySize ≤ C) (hC : C < 2 ^ 32) :
    (n + 1) % 2 ^ 32 = n + 1 ∧
      (headerSize + (n + 1) * entrySize) % 2 ^ 64 = headerSize + (n + 1) * entrySize := by
  simp only [headerSize, entrySize] at *
  omega

theorem walk_nil_eq (env : Env) (C : Nat) (spi : SYSTEM_PROCESS_INFORMATION) (s : WalkState)
    (hinv : headerSize + s.processCount * entrySize ≤ C) (hC : C < 2 ^ 32) :
    walk env C spi [] s =
      if headerSize + (s.processCount + 1) * entrySize > C then
        { s with processCount := s.processCount + 1, status := STATUS_BUFFER_TOO_SMALL }
      else
        { s with processCount := s.processCount + 1,
                 buffer := writeEntry env s.buffer (s.processCount + 1) spi } := by
  obtain ⟨h1, h2⟩ := count_no_wrap s.processCount C hinv hC
  rw [walk_nil, h1, h2]

theorem walk_cons_eq (env : Env) (C : Nat) (spi next : SYSTEM_PROCESS_INFORMATION)
    (rest : List SYSTEM_PROCESS_INFORMATION) (s : WalkState)
    (hinv : headerSize + s.processCount * entrySize ≤ C) (hC : C < 2 ^ 32) :
    walk env C spi (next :: rest) s =
      if headerSize + (s.processCount + 1) * entrySize > C then
        { s with processCount := s.processCount + 1, status := STATUS_BUFFER_TOO_SMALL }
      else
        walk env C next rest
          { s with processCount := s.processCount + 1,
                   buffer := writeEntry env s.buffer (s.processCount + 1) spi } := by
  obtain ⟨h1, h2⟩ := count_no_wrap s.processCount C hinv hC
  rw [walk_cons, h1, h2]

theorem count_lt (n C : Nat) (hinv : headerSize + n * entrySize ≤ C) (hC : C < 2 ^ 32) :
    n + 1 < 2 ^ 32 := by
  simp only [headerSize, entrySize] at *
  omega

/-- The walk changes no byte below the slot it starts at and no byte at or above the capacity. -/
theorem walk_frame (env : Env) (C : Nat) (hC : C < 2 ^ 32)
    (rest : List SYSTEM_PROCESS_INFORMATION) :
    ∀ (spi : SYSTEM_PROCESS_INFORMATION) (s : WalkState),
      headerSize + s.processCount * entrySize ≤ C →
      ∀ a, (a < headerSize + s.processCount * entrySize ∨ C ≤ a) →
        (walk env C spi rest s).buffer a = s.buffer a := by
  induction rest with
  | nil =>
    intro spi s hinv a ha
    rw [walk_nil_eq env C spi s hinv hC]
    split
    · rfl
    · rename_i hfit
      simp only []
      apply writeEntry_outside env s.buffer s.processCount spi (count_lt _ _ hinv hC)
      simp only [headerSize, entrySize] at *
      omega
  | cons next rest ih =>
    intro spi s hinv a ha
    rw [walk_cons_eq env C spi next rest s hinv hC]
    split
    · rfl
    · rename_i hfit
      rw [ih next _ (by simp only [headerSize, entrySize] at *; omega) a
        (by simp only [headerSize, entrySize] at *; omega)]
      simp only []
      apply writeEntry_outside env s.buffer s.processCount spi (count_lt _ _ hinv hC)
      simp only [headerSize, entrySize] at *
      omega

/-- When every record fits, the walk keeps the status it started with and counts every record. -/
theorem walk_fits (env : Env) (C : Nat) (hC : C < 2 ^ 32)
    (rest : List SYSTEM_PROCESS_INFORMATION) :
    ∀ (spi : SYSTEM_PROCESS_INFORMATION) (s : WalkState),
      headerSize + (s.processCount + 1 + rest.length) * entrySize ≤ C →
      (walk env C spi rest s).status = s.status ∧
        (walk env C spi rest s).processCount = s.processCount + 1 + rest.length := by
  induction rest with
  | nil =>
    intro spi s hfit
    rw [walk_nil_eq env C spi s (by simp only [headerSize, entrySize] at *; omega) hC]
    rw [if_neg (by simp only [headerSize, entrySize, List.length_nil] at *; omega)]
    simp
  | cons next rest ih =>
    intro spi s hfit
    rw [walk_cons_eq env C spi next rest s
      (by simp only [headerSize, entrySize, List.length_cons] at *; omega) hC]
    rw [if_neg (by simp only [headerSize, entrySize, List.length_cons] at *; omega)]
    have := ih next ⟨writeEntry env s.buffer (s.processCount + 1) spi, s.processCount + 1, s.status⟩
      (by simp only [headerSize, entrySize, List.length_cons] at *; omega)
    simp only [List.length_cons] at *
    constructor
    · exact this.1
    · rw [this.2]; omega

/-- When only `M` entries fit and more records remain, the walk ends with
`STATUS_BUFFER_TOO_SMALL` and changes no byte from the slot of entry `M` on. -/
theorem walk_truncated (env : Env) (C M : Nat) (hC : C < 2 ^ 32)
    (hM1 : headerSize + M * entrySize ≤ C) (hM2 : C < headerSize + (M + 1) * entrySize)
    (rest : List SYSTEM_PROCESS_INFORMATION) :
    ∀ (spi : SYSTEM_PROCESS_INFORMATION) (s : WalkState),
      s.processCount ≤ M → M < s.processCount + 1 + rest.length →
      (walk env C spi rest s).status = STATUS_BUFFER_TOO_SMALL ∧
        ∀ a, headerSize + M * entrySize ≤ a → (walk env C spi rest s).buffer a = s.buffer a := by
  induction rest with
  | nil =>
    intro spi s h1 h2
    have hinv : headerSize + s.processCount * entrySize ≤ C := by
      simp only [headerSize, entrySize] at *; omega
    rw [walk_nil_eq env C spi s hinv hC]
    rw [if_pos (by simp only [headerSize, entrySize, List.length_nil] at *; omega)]
    simp
  | cons next rest ih =>
    intro spi s h1 h2
    have hinv : headerSize + s.processCount * entrySize ≤ C := by
      simp only [headerSize, entrySize] at *; omega
    rw [walk_cons_eq env C spi next rest s hinv hC]
    split
    · simp
    · rename_i hfit
      have hlt : s.processCount + 1 ≤ M := by
        simp only [headerSize, entrySize] at *; omega
      have := ih next ⟨writeEntry env s.buffer (s.processCount + 1) spi, s.processCount + 1, s.status⟩
        hlt (by simp only [List.length_cons] at *; omega)
      refine ⟨this.1, ?_⟩
      intro a ha
      rw [this.2 a ha]
      simp only []
      apply writeEntry_outside env s.buffer s.processCount spi (count_lt _ _ hinv hC)
      simp only [headerSize, entrySize] at *
      omega

/-- The slot of every record that fits holds, when the walk ends, what `writeEntry` stored
for that record. -/
theorem walk_entry (env : Env) (C : Nat) (hC : C < 2 ^ 32)
    (rest : List SYSTEM_PROCESS_INFORMATION) :
    ∀ (spi : SYSTEM_PROCESS_INFORMATION) (s : WalkState) (i : Nat)
      (r : SYSTEM_PROCESS_INFORMATION),
      (spi :: rest)[i]? = some r →
      headerSize + (s.processCount + i + 1) * entrySize ≤ C →
      ∀ (m0 : Mem) (a : Nat), headerSize + (s.processCount + i) * entrySize ≤ a →
        a < headerSize + (s.processCount + i + 1) * entrySize →
        (walk env C spi rest s).buffer a = writeEntry env m0 (s.processCount + i + 1) r a := by
  induction rest with
  | nil =>
    intro spi s i r hr hfit m0 a ha1 ha2
    have hinv : headerSize + s.processCount * entrySize ≤ C := by
      simp only [headerSize, entrySize] at *; omega
    cases i with
    | zero =>
      simp only [List.getElem?_cons_zero, Option.some.injEq] at hr
      subst hr
      rw [walk_nil_eq env C spi s hinv hC]
      rw [if_neg (by simp only [headerSize, entrySize] at *; omega)]
      simp only [Nat.add_zero] at *
      exact writeEntry_inside env s.buffer m0 s.processCount spi (count_lt _ _ hinv hC) a ha1 ha2
    | succ i => simp at hr
  | cons next rest ih =>
    intro spi s i r hr hfit m0 a ha1 ha2
    have hinv : headerSize + s.processCount * entrySize ≤ C := by
      simp only [headerSize, entrySize] at *; omega
    rw [walk_cons_eq env C spi next rest s hinv hC]
    rw [if_neg (by simp only [headerSize, entrySize] at *; omega)]
    cases i with
    | zero =>
      simp only [List.getElem?_cons_zero, Option.some.injEq] at hr
      subst hr
      simp only [Nat.add_zero] at *
      rw [walk_frame env C hC rest next _ (by simp only [headerSize, entrySize] at *; omega) a
        (Or.inl (by simp only [headerSize, entrySize] at *; omega))]
      exact writeEntry_inside env s.buffer m0 s.processCount spi (count_lt _ _ hinv hC) a ha1 ha2
    | succ i =>
      simp only [List.getElem?_cons_succ] at hr
      have := ih next ⟨writeEntry env s.buffer (s.processCount + 1) spi, s.processCount + 1, s.status⟩ i r hr
        (by simp only [headerSize, entrySize] at *; omega) m0 a
        (by simp only [headerSize, entrySize] at *; omega)
        (by simp only [headerSize, entrySize] at *; omega)
      rw [this]
      have e : s.processCount + 1 + i + 1 = s.processCount + (i + 1) + 1 := by omega
      simp only [e]

/-! ## SqlmemImageNameEquals against the base name of the specification -/

theorem findStartIndex_le (buffer : List Nat) (n : Nat) : findStartIndex buffer n ≤ n := by
  induction n with
  | zero => simp [findStartIndex]
  | succ n ih =>
    simp only [findStartIndex]
    split
    · exact Nat.le_refl _
    · omega

theorem drop_findStartIndex (buffer : List Nat) (n : Nat) (hn : n ≤ buffer.length) :
    (buffer.take n).drop (findStartIndex buffer n) = baseNameSpec (buffer.take n) := by
  induction n with
  | zero => simp [findStartIndex, baseNameSpec]
  | succ n ih =>
    have hlt : n < buffer.length := by omega
    have htake : buffer.take (n + 1) = buffer.take n ++ [buffer.getD n 0] := by
      rw [List.take_succ]
      congr 1
      simp [List.getD, List.getElem?_eq_getElem hlt]
    have hk := findStartIndex_le buffer n
    have ih := ih (by omega)
    simp only [findStartIndex]
    rw [htake]
    have hlen : (buffer.take n).length = n := by
      simp [List.length_take, Nat.min_eq_left (Nat.le_of_lt hlt)]
    generalize buffer.getD n 0 = c at *
    generalize buffer.take n = pre at *
    unfold baseNameSpec at *
    simp only [List.reverse_append, List.reverse_cons, List.reverse_nil, List.nil_append,
      List.singleton_append, List.takeWhile_cons]
    by_cases hsep : c = 0x5C ∨ c = 0x2F ∨ c = 0x3A
    · rw [if_pos hsep]
      have : isPathSeparator c = true := by
        simp only [isPathSeparator, Bool.or_eq_true, beq_iff_eq]
        tauto
      simp [this, hlen]
    · rw [if_neg hsep]
      have : isPathSeparator c = false := by
        simp only [isPathSeparator, Bool.or_eq_false_iff, beq_eq_false_iff_ne]
        tauto
      simp only [this, Bool.not_false, ite_true, List.reverse_cons]
      rw [← ih, List.drop_append_of_le_length]
      rw [hlen]
      exact hk

theorem equalUpcased_iff (table : Nat → Nat) (n : Nat) :
    ∀ (s1 s2 : List Nat), n ≤ s1.length → n ≤ s2.length →
      (equalUpcased table n s1 s2 = true ↔
        (s1.take n).map (RtlUpcaseUnicodeChar table) =
          (s2.take n).map (RtlUpcaseUnicodeChar table)) := by
  induction n with
  | zero => intro s1 s2 _ _; simp [equalUpcased]
  | succ n ih =>
    intro s1 s2 h1 h2
    cases s1 with
    | nil => simp at h1
    | cons c1 t1 =>
      cases s2 with
      | nil => simp at h2
      | cons c2 t2 =>
        simp only [List.length_cons] at h1 h2
        simp only [equalUpcased, List.headD_cons, List.tail_cons, Bool.and_eq_true, beq_iff_eq,
          List.take_succ_cons, List.map_cons, List.cons.injEq]
        rw [ih t1 t2 (by omega) (by omega)]

theorem RtlInitUnicodeString_eq (target : List Nat) (ht0 : ∀ c ∈ target, c ≠ 0) :
    RtlInitUnicodeString target = { Length := target.length * 2, Buffer := some target } := by
  have h : target.takeWhile (fun c => c != 0) = target := by
    rw [List.takeWhile_eq_self_iff]
    intro c hc
    simpa using ht0 c hc
  simp only [RtlInitUnicodeString, h]

theorem eqIgnoreCase_of_length_ne (table : Nat → Nat) (a b : List Nat)
    (h : a.length ≠ b.length) : eqIgnoreCase table a b = false := by
  unfold eqIgnoreCase
  rw [beq_eq_false_iff_ne]
  intro heq
  apply h
  have := congrArg List.length heq
  simpa using this

/-- The comparison of the code agrees with the specification: the base name, taken after the
last path separator, equals the target ignoring case. -/
theorem imageNameEquals_eq (table : Nat → Nat) (name : UNICODE_STRING) (target : List Nat)
    (hwf : WellFormed name) (ht0 : ∀ c ∈ target, c ≠ 0) (htne : target ≠ []) :
    SqlmemImageNameEquals table (some name) target =
      eqIgnoreCase table (baseNameSpec (nameChars name)) target := by
  obtain ⟨hlen, hbuf⟩ := hwf
  have htl : 0 < target.length := List.length_pos.mpr htne
  have hnil : (baseNameSpec []).length ≠ target.length := by
    simp only [baseNameSpec, List.reverse_nil, List.takeWhile_nil, List.length_nil]
    omega
  unfold SqlmemImageNameEquals nameChars
  cases hb : name.Buffer with
  | none =>
    simp only [hb]
    rw [eqIgnoreCase_of_length_ne _ _ _ hnil]
  | some buffer =>
    have hle := hbuf buffer hb
    simp only [hb]
    by_cases hz : name.Length = 0
    · rw [if_pos hz, hz, Nat.zero_div, List.take_zero, eqIgnoreCase_of_length_ne _ _ _ hnil]
    · rw [if_neg hz]
      have hn : name.Length / 2 % 2 ^ 16 = name.Length / 2 := by omega
      have hk := findStartIndex_le buffer (name.Length / 2)
      have hbl : ((name.Length / 2 - findStartIndex buffer (name.Length / 2)) * 2) % 2 ^ 16
          = (name.Length / 2 - findStartIndex buffer (name.Length / 2)) * 2 := by omega
      have hbase := drop_findStartIndex buffer (name.Length / 2) hle
      have hbaselen : (baseNameSpec (buffer.take (name.Length / 2))).length
          = name.Length / 2 - findStartIndex buffer (name.Length / 2) := by
        rw [← hbase]
        simp [List.length_drop, List.length_take, Nat.min_eq_left hle]
      simp only [hn, hbl]
      by_cases hempty : (name.Length / 2 - findStartIndex buffer (name.Length / 2)) * 2 = 0
      · rw [if_pos hempty, eqIgnoreCase_of_length_ne]
        rw [hbaselen]
        omega
      · rw [if_neg hempty]
        unfold RtlEqualUnicodeString
        rw [RtlInitUnicodeString_eq target ht0]
        simp only [Option.getD_some, Nat.mul_div_cancel _ (by decide : 0 < 2)]
        by_cases hl : name.Length / 2 - findStartIndex buffer (name.Length / 2) = target.length
        · have hiff := equalUpcased_iff table
            (name.Length / 2 - findStartIndex buffer (name.Length / 2))
            (buffer.drop (findStartIndex buffer (name.Length / 2))) target
            (by rw [List.length_drop]; omega) (by omega)
          have htd : List.take (name.Length / 2 - findStartIndex buffer (name.Length / 2))
              (buffer.drop (findStartIndex buffer (name.Length / 2)))
              = baseNameSpec (buffer.take (name.Length / 2)) := by
            rw [← hbase, List.drop_take]
          rw [htd] at hiff
          have htt : List.take (name.Length / 2 - findStartIndex buffer (name.Length / 2)) target
              = target := by
            rw [hl]; exact List.take_length target
          rw [htt] at hiff
          have hle2 : ((name.Length / 2 - findStartIndex buffer (name.Length / 2)) * 2
              == target.length * 2) = true := by
            rw [hl]; simp
          rw [hle2, Bool.true_and]
          unfold eqIgnoreCase
          rw [Bool.eq_iff_iff, hiff, beq_iff_eq]
        · have hne : ((name.Length / 2 - findStartIndex buffer (name.Length / 2)) * 2
              == target.length * 2) = false := by
            rw [beq_eq_false_iff_ne]; omega
          rw [hne, Bool.false_and, eqIgnoreCase_of_length_ne]
          rw [hbaselen]
          exact hl

/-! ## The fields of a written entry -/

theorem storeLE_byte (m : Mem) (off v : Nat) : storeLE m off 1 v off = v % 256 := by
  simp [storeLE, storeBytes, leBytes]

theorem wcharBytes_getD_even (cs : List Nat) :
    ∀ j, (wcharBytes cs).getD (2 * j) 0 = cs.getD j 0 % 256 := by
  induction cs with
  | nil => intro j; simp [wcharBytes]
  | cons c cs ih =>
    intro j
    cases j with
    | zero => simp [wcharBytes, leBytes]
    | succ j =>
      have : 2 * (j + 1) = 2 * j + 1 + 1 := by omega
      rw [this]
      simp only [wcharBytes, leBytes, List.cons_append, List.nil_append, List.getD_cons_succ]
      exact ih j

theorem wcharBytes_getD_odd (cs : List Nat) :
    ∀ j, (wcharBytes cs).getD (2 * j + 1) 0 = cs.getD j 0 / 256 % 256 := by
  induction cs with
  | nil => intro j; simp [wcharBytes]
  | cons c cs ih =>
    intro j
    cases j with
    | zero => simp [wcharBytes, leBytes]
    | succ j =>
      have : 2 * (j + 1) + 1 = (2 * j + 1) + 1 + 1 := by omega
      rw [this]
      simp only [wcharBytes, leBytes, List.cons_append, List.nil_append, List.getD_cons_succ]
      exact ih j

/-- A `WCHAR` array stored over zeroed memory reads back as the stored characters followed by
zeros. -/
theorem loadWCHAR_storeBytes (m : Mem) (off : Nat) (cs : List Nat) (j : Nat)
    (hz : ∀ a, off + 2 * cs.length ≤ a → a < off + 2 * j + 2 → m a = 0) :
    loadWCHAR (storeBytes m off (wcharBytes cs)) off j = cs.getD j 0 % 65536 := by
  have hw := wcharBytes_length cs
  unfold loadWCHAR
  simp only [loadLE, Nat.mul_zero, Nat.add_zero]
  by_cases hj : j < cs.length
  · rw [storeBytes_inside _ _ _ _ (by omega) (by omega),
      storeBytes_inside _ _ _ _ (by omega) (by omega)]
    have e1 : off + 2 * j - off = 2 * j := by omega
    have e2 : off + 2 * j + 1 - off = 2 * j + 1 := by omega
    rw [e1, e2, wcharBytes_getD_even, wcharBytes_getD_odd]
    omega
  · rw [storeBytes_outside _ _ _ _ (by omega), storeBytes_outside _ _ _ _ (by omega),
      hz _ (by omega) (by omega), hz _ (by omega) (by omega)]
    have : cs.getD j 0 = 0 := by
      rw [List.getD_eq_default]
      omega
    rw [this]

theorem writeEntry_IsSqlServer (env : Env) (m : Mem) (idx : Nat)
    (spi : SYSTEM_PROCESS_INFORMATION) (hidx : idx + 1 < 2 ^ 32) :
    writeEntry env m (idx + 1) spi (entryOffset idx + Entry.IsSqlServer) =
      if SqlmemImageNameEquals env.upcaseTable (some spi.ImageName) L_sqlservr_exe then 1
      else 0 := by
  have hn := imageNameChars_length_le spi.ImageName
  have hw := wcharBytes_length (imageNameChars spi.ImageName)
  unfold writeEntry entryOffset
  simp only [entry_index idx hidx]
  simp only [headerSize, entrySize, Entry.Pid, Entry.ImageName, Entry.WorkingSetBytes,
    Entry.PrivateBytes, Entry.HasLockPagesPrivilege, Entry.IsSqlServer, Entry.IsVmmemOrVm] at *
  split_ifs <;>
  simp (disch := omega) only [storeLE_outside, storeBytes_outside, RtlZeroMemory_inside,
    storeLE_byte]

theorem writeEntry_IsVmmemOrVm (env : Env) (m : Mem) (idx : Nat)
    (spi : SYSTEM_PROCESS_INFORMATION) (hidx : idx + 1 < 2 ^ 32) :
    writeEntry env m (idx + 1) spi (entryOffset idx + Entry.IsVmmemOrVm) =
      if SqlmemImageNameEquals env.upcaseTable (some spi.ImageName) L_vmmem ||
          SqlmemImageNameEquals env.upcaseTable (some spi.ImageName) L_vmwp_exe then 1
      else 0 := by
  have hn := imageNameChars_length_le spi.ImageName
  have hw := wcharBytes_length (imageNameChars spi.ImageName)
  unfold writeEntry entryOffset
  simp only [entry_index idx hidx]
  simp only [headerSize, entrySize, Entry.Pid, Entry.ImageName, Entry.WorkingSetBytes,
    Entry.PrivateBytes, Entry.HasLockPagesPrivilege, Entry.IsSqlServer, Entry.IsVmmemOrVm] at *
  split_ifs <;>
  simp (disch := omega) only [storeLE_outside, storeBytes_outside, RtlZeroMemory_inside,
    storeLE_byte]

theorem writeEntry_ImageName (env : Env) (m : Mem) (idx : Nat)
    (spi : SYSTEM_PROCESS_INFORMATION) (hidx : idx + 1 < 2 ^ 32) (j : Nat) (hj : j < 64) :
    loadWCHAR (writeEntry env m (idx + 1) spi) (entryOffset idx + Entry.ImageName) j =
      (imageNameChars spi.ImageName).getD j 0 % 65536 := by
  have hn := imageNameChars_length_le spi.ImageName
  have hw := wcharBytes_length (imageNameChars spi.ImageName)
  rw [← loadWCHAR_storeBytes
    (storeLE (RtlZeroMemory m (entryOffset idx) entrySize) (entryOffset idx + Entry.Pid) 4
      spi.UniqueProcessId)
    (entryOffset idx + Entry.ImageName) (imageNameChars spi.ImageName) j]
  · unfold loadWCHAR
    apply loadLE_congr
    intro a ha1 ha2
    unfold writeEntry entryOffset
    simp only [entry_index idx hidx]
    simp only [headerSize, entrySize, Entry.Pid, Entry.ImageName, Entry.WorkingSetBytes,
      Entry.PrivateBytes, Entry.HasLockPagesPrivilege, Entry.IsSqlServer, Entry.IsVmmemOrVm,
      entryOffset] at *
    split_ifs <;>
    simp (disch := omega) only [storeLE_outside]
  · intro a ha1 ha2
    unfold entryOffset at *
    simp only [headerSize, entrySize, Entry.Pid, Entry.ImageName] at *
    rw [storeLE_outside _ _ _ _ _ (by omega), RtlZeroMemory_inside _ _ _ _ (by omega) (by omega)]

/-! ## The header -/

theorem writeHeader_outside (env : Env) (m : Mem) (a : Nat) (ha : headerSize ≤ a) :
    writeHeader env m a = m a := by
  unfold writeHeader
  simp only [headerSize, Summary.Version, Summary.ProcessCount, Summary.TotalPhysBytes,
    Summary.AvailPhysBytes, Summary.KernelNonPagedBytes, Summary.KernelPagedBytes,
    Summary.SystemCacheBytes, Summary.UsesForensicPfns, Summary.Reserved] at *
  split_ifs <;> simp (disch := omega) only [storeLE_outside]

theorem writeHeader_TotalPhysBytes (env : Env) (m : Mem) :
    loadLE (writeHeader env m) Summary.TotalPhysBytes 8 = totalPhysBytes env % 256 ^ 8 := by
  rw [← loadLE_storeLE
    (if NT_SUCCESS env.perfStatus then
      storeLE (storeLE (storeLE (storeLE
        (storeLE (storeLE m Summary.Version 4 SQLMEM_SUMMARY_VERSION) Summary.ProcessCount 4 0)
        Summary.AvailPhysBytes 8 (pagesToBytes env.perfInfo.AvailablePages))
        Summary.KernelNonPagedBytes 8 (pagesToBytes env.perfInfo.NonPagedPoolPages))
        Summary.KernelPagedBytes 8 (pagesToBytes env.perfInfo.PagedPoolPages))
        Summary.SystemCacheBytes 8 (pagesToBytes env.perfInfo.ResidentSystemCachePage)
    else
      storeLE (storeLE (storeLE (storeLE
        (storeLE (storeLE m Summary.Version 4 SQLMEM_SUMMARY_VERSION) Summary.ProcessCount 4 0)
        Summary.AvailPhysBytes 8 0) Summary.KernelNonPagedBytes 8 0)
        Summary.KernelPagedBytes 8 0) Summary.SystemCacheBytes 8 0)
    Summary.TotalPhysBytes 8 (totalPhysBytes env)]
  apply loadLE_congr
  intro a ha1 ha2
  unfold writeHeader
  simp only [Summary.TotalPhysBytes, Summary.UsesForensicPfns, Summary.Reserved] at *
  rw [storeLE_outside _ _ _ _ _ (by omega), storeLE_outside _ _ _ _ _ (by omega)]

theorem sumPhysicalRanges_eq (rs : List PHYSICAL_MEMORY_RANGE) :
    ∀ acc, sumPhysicalRanges rs acc % 2 ^ 64 =
      (acc + specRangeBytes (some rs)) % 2 ^ 64 := by
  induction rs with
  | nil => intro acc; simp [sumPhysicalRanges, specRangeBytes]
  | cons r rs ih =>
    intro acc
    simp only [sumPhysicalRanges]
    by_cases h : r.BaseAddress ≠ 0 ∨ r.NumberOfBytes ≠ 0
    · rw [if_pos h, ih]
      have hb : (r.BaseAddress != 0 || r.NumberOfBytes != 0) = true := by
        simpa using h
      simp only [specRangeBytes, List.takeWhile_cons, hb, ite_true, List.map_cons,
        List.sum_cons] at *
      omega
    · rw [if_neg h]
      have hb : (r.BaseAddress != 0 || r.NumberOfBytes != 0) = false := by
        simpa using h
      simp [specRangeBytes, List.takeWhile_cons, hb]

theorem sumPhysicalRanges_lt (rs : List PHYSICAL_MEMORY_RANGE) :
    ∀ acc, acc < 2 ^ 64 → sumPhysicalRanges rs acc < 2 ^ 64 := by
  induction rs with
  | nil => intro acc h; simpa [sumPhysicalRanges] using h
  | cons r rs ih =>
    intro acc h
    simp only [sumPhysicalRanges]
    split
    · exact ih _ (Nat.mod_lt _ (by decide))
    · exact h

/-- The range loop computes the sum of the range lengths, reduced to 64 bits. -/
theorem rangeTotal_eq (env : Env) : rangeTotal env = specRangeBytes env.physicalRanges % 2 ^ 64 := by
  unfold rangeTotal
  cases h : env.physicalRanges with
  | none => simp [specRangeBytes]
  | some rs =>
    simp only []
    have h1 := sumPhysicalRanges_eq rs 0
    have h2 := sumPhysicalRanges_lt rs 0 (by decide)
    rw [Nat.mod_eq_of_lt h2] at h1
    simpa using h1

theorem totalPhysBytes_lt (env : Env) : totalPhysBytes env < 2 ^ 64 := by
  unfold totalPhysBytes
  split
  · split
    · exact Nat.mod_lt _ (by decide)
    · decide
  · rw [rangeTotal_eq]
    exact Nat.mod_lt _ (by decide)

/-! ## The whole call -/

theorem enumerate_small (env : Env) (buf : Mem) (C bw : Nat) (h : C < summarySize) :
    SqlmemEnumerateProcesses env (some buf) C (some bw) =
      ⟨some STATUS_BUFFER_TOO_SMALL, some buf, some bw⟩ := by
  simp [SqlmemEnumerateProcesses, h]

theorem enumerate_walk (env : Env) (buf : Mem) (C bw status : Nat)
    (first : SYSTEM_PROCESS_INFORMATION) (rest : List SYSTEM_PROCESS_INFORMATION)
    (h : summarySize ≤ C)
    (hq : queryProcessList env.processQueries initialBufferLength =
      Acquired.done status (some (first, rest)))
    (hs : NT_SUCCESS status = true) :
    SqlmemEnumerateProcesses env (some buf) C (some bw) =
      if NT_SUCCESS (walk env C first rest ⟨writeHeader env buf, 0, status⟩).status then
        ⟨some (walk env C first rest ⟨writeHeader env buf, 0, status⟩).status,
          some (storeLE (walk env C first rest ⟨writeHeader env buf, 0, status⟩).buffer
            Summary.ProcessCount 4
            (walk env C first rest ⟨writeHeader env buf, 0, status⟩).processCount),
          some ((headerSize +
            (walk env C first rest ⟨writeHeader env buf, 0, status⟩).processCount * entrySize)
              % 2 ^ 64 % 2 ^ 32)⟩
      else
        ⟨some (walk env C first rest ⟨writeHeader env buf, 0, status⟩).status,
          some (walk env C first rest ⟨writeHeader env buf, 0, status⟩).buffer, some 0⟩ := by
  simp [SqlmemEnumerateProcesses, Nat.not_lt.mpr h, hq, hs]

theorem walk_written (env : Env) (C : Nat) (hC : C < 2 ^ 32)
    (rest : List SYSTEM_PROCESS_INFORMATION) :
    ∀ (spi : SYSTEM_PROCESS_INFORMATION) (s : WalkState),
      headerSize + s.processCount * entrySize ≤ C → NT_SUCCESS s.status = true →
      headerSize + entriesWritten (walk env C spi rest s) * entrySize ≤ C ∧
      s.processCount ≤ entriesWritten (walk env C spi rest s) ∧
      ∀ a, headerSize + entriesWritten (walk env C spi rest s) * entrySize ≤ a →
        (walk env C spi rest s).buffer a = s.buffer a := by
  have hsmall : NT_SUCCESS STATUS_BUFFER_TOO_SMALL = false := by decide
  induction rest with
  | nil =>
    intro spi s hinv hs
    rw [walk_nil_eq env C spi s hinv hC]
    split
    · simp only [entriesWritten, hsmall, Bool.false_eq_true, ite_false, Nat.add_sub_cancel]
      exact ⟨hinv, Nat.le_refl _, fun _ _ => trivial⟩
    · rename_i hfit
      simp only [entriesWritten, hs, ite_true]
      refine ⟨by omega, by omega, ?_⟩
      intro a ha
      apply writeEntry_outside env s.buffer s.processCount spi (count_lt _ _ hinv hC)
      simp only [headerSize, entrySize] at *
      omega
  | cons next rest ih =>
    intro spi s hinv hs
    rw [walk_cons_eq env C spi next rest s hinv hC]
    split
    · simp only [entriesWritten, hsmall, Bool.false_eq_true, ite_false, Nat.add_sub_cancel]
      exact ⟨hinv, Nat.le_refl _, fun _ _ => trivial⟩
    · rename_i hfit
      have := ih next ⟨writeEntry env s.buffer (s.processCount + 1) spi, s.processCount + 1, s.status⟩
        (by simp only [headerSize, entrySize] at *; omega) hs
      obtain ⟨h1, h2, h3⟩ := this
      refine ⟨h1, by simp only [] at h2; omega, ?_⟩
      intro a ha
      rw [h3 a ha]
      simp only [] at h2 ⊢
      apply writeEntry_outside env s.buffer s.processCount spi (count_lt _ _ hinv hC)
      simp only [headerSize, entrySize] at *
      right
      have : (s.processCount + 1) * 176 ≤
          entriesWritten (walk env C next rest
            ⟨writeEntry env s.buffer (s.processCount + 1) spi, s.processCount + 1, s.status⟩) * 176 :=
        Nat.mul_le_mul_right _ h2
      omega

/-- The slot of every record that fits holds, after the call, what `writeEntry` stored for it. -/
theorem enumerate_entry (env : Env) (buf : Mem) (C bw status : Nat)
    (first : SYSTEM_PROCESS_INFORMATION) (rest : List SYSTEM_PROCESS_INFORMATION)
    (hC : C < 2 ^ 32)
    (hq : queryProcessList env.processQueries initialBufferLength =
      Acquired.done status (some (first, rest)))
    (hs : NT_SUCCESS status = true)
    (i : Nat) (r : SYSTEM_PROCESS_INFORMATION) (hr : (first :: rest)[i]? = some r)
    (hfit : entryOffset (i + 1) ≤ C) :
    ∃ out, (SqlmemEnumerateProcesses env (some buf) C (some bw)).buffer = some out ∧
      ∀ (m0 : Mem) (a : Nat), entryOffset i ≤ a → a < entryOffset (i + 1) →
        out a = writeEntry env m0 (i + 1) r a := by
  unfold entryOffset at *
  have hsum : summarySize ≤ C := by
    simp only [summarySize, headerSize, entrySize] at *; omega
  have hw := walk_entry env C hC rest first ⟨writeHeader env buf, 0, status⟩ i r hr
    (by simp only [headerSize, entrySize] at *; omega)
  simp only [Nat.zero_add] at hw
  rw [enumerate_walk env buf C bw status first rest hsum hq hs]
  split
  · refine ⟨_, rfl, ?_⟩
    intro m0 a ha1 ha2
    rw [storeLE_outside _ _ _ _ _
      (by simp only [Summary.ProcessCount, headerSize, entrySize] at *; omega)]
    exact hw m0 a ha1 ha2
  · exact ⟨_, rfl, hw⟩

theorem entry_count_lt (i C : Nat) (hC : C < 2 ^ 32) (hfit : entryOffset (i + 1) ≤ C) :
    i + 1 < 2 ^ 32 := by
  simp only [entryOffset, headerSize, entrySize] at *
  omega

theorem loadWCHAR_congr (m1 m2 : Mem) (off j : Nat)
    (h : ∀ a, off + 2 * j ≤ a → a < off + 2 * j + 2 → m1 a = m2 a) :
    loadWCHAR m1 off j = loadWCHAR m2 off j :=
  loadLE_congr m1 m2 (off + 2 * j) 2 h

theorem RtlStringCopyWorkerW_eq_take (cchDest : Nat) :
    ∀ (src : List Nat) (cchToCopy : Nat), cchToCopy ≤ cchDest → cchToCopy ≤ src.length →
      (∀ j, j < cchToCopy → src.getD j 0 ≠ 0) →
      RtlStringCopyWorkerW cchDest src cchToCopy = src.take cchToCopy := by
  induction cchDest with
  | zero =>
    intro src c h1 _ _
    have : c = 0 := by omega
    subst this
    simp [RtlStringCopyWorkerW]
  | succ d ih =>
    intro src c h1 h2 h3
    cases src with
    | nil =>
      simp only [List.length_nil] at h2
      have : c = 0 := by omega
      subst this
      simp [RtlStringCopyWorkerW]
    | cons x xs =>
      cases c with
      | zero => simp [RtlStringCopyWorkerW]
      | succ c =>
        have hx : x ≠ 0 := by
          have := h3 0 (by omega)
          simpa using this
        simp only [RtlStringCopyWorkerW, Nat.add_eq_zero, one_ne_zero, and_false, hx, or_self,
          ite_false, Nat.add_sub_cancel, List.take_succ_cons, List.cons.injEq, true_and]
        apply ih xs c (by omega) (by simpa using h2)
        intro j hj
        have := h3 (j + 1) (by omega)
        simpa using this

/-- Whatever the image name, the characters stored end with a NUL at an index of at most 63. -/
theorem imageNameChars_terminated (imageName : UNICODE_STRING) :
    ∃ k, k ≤ 63 ∧ (imageNameChars imageName).getD k 0 = 0 := by
  refine ⟨(imageNameChars imageName).length - 1, ?_, ?_⟩
  · have := imageNameChars_length_le imageName
    omega
  · have key : ∀ (src : List Nat) (n : Nat),
        (RtlStringCchCopyNW Entry.ImageNameCch src n).getD
          ((RtlStringCchCopyNW Entry.ImageNameCch src n).length - 1) 0 = 0 := by
      intro src n
      unfold RtlStringCchCopyNW
      simp only [Entry.ImageNameCch]
      split
      · rfl
      · split <;> simp [List.getD_eq_getElem?_getD]
    unfold imageNameChars RtlStringCchCopyW
    split
    · split
      · exact key _ _
      · exact key _ _
    · exact key _ _

theorem imageNameChars_empty (imageName : UNICODE_STRING)
    (h : imageName.Buffer = none ∨ imageName.Length = 0) :
    imageNameChars imageName = L_System ++ [0] := by
  have hs : RtlStringCchCopyW Entry.ImageNameCch L_System = L_System ++ [0] := by decide
  unfold imageNameChars
  split
  · rename_i buffer hb
    rcases h with h | h
    · rw [h] at hb; cases hb
    · rw [if_neg (by omega)]
      exact hs
  · exact hs

theorem imageNameEquals_empty (table : Nat → Nat) (imageName : UNICODE_STRING)
    (target : List Nat) (h : imageName.Buffer = none ∨ imageName.Length = 0) :
    SqlmemImageNameEquals table (some imageName) target = false := by
  unfold SqlmemImageNameEquals
  simp only []
  split
  · rfl
  · rename_i buffer hb
    rcases h with h | h
    · rw [h] at hb; cases hb
    · rw [if_pos h]

theorem imageNameChars_copy (imageName : UNICODE_STRING) (buffer : List Nat) (n : Nat)
    (hb : imageName.Buffer = some buffer) (hl : imageName.Length = 2 * n) (hn : 0 < n)
    (hnb : n ≤ buffer.length) (hnz : ∀ j, j < n → buffer.getD j 0 ≠ 0) :
    imageNameChars imageName = buffer.take (min n 63) ++ [0] := by
  unfold imageNameChars
  simp only [hb, hl, Entry.ImageNameCch]
  rw [if_pos (by omega)]
  have hcnt : (if 2 * n ≥ 64 * 2 then 64 * 2 - 2 else 2 * n) / 2 = min n 63 := by
    split <;> omega
  rw [hcnt]
  unfold RtlStringCchCopyNW
  rw [RtlStringCopyWorkerW_eq_take 64 buffer (min n 63) (by omega) (by omega)
    (fun j hj => hnz j (by omega))]
  have hlen : (buffer.take (min n 63)).length = min n 63 := by
    rw [List.length_take]; omega
  simp only [hlen]
  rw [if_neg (by decide), if_neg (by omega)]

/-- After a call that passed the size check, the header bytes other than `ProcessCount` are
the ones `writeHeader` stored. -/
theorem enumerate_header (env : Env) (buf : Mem) (C bw : Nat) (hC : C < 2 ^ 32)
    (hsum : summarySize ≤ C) :
    ∃ out, (SqlmemEnumerateProcesses env (some buf) C (some bw)).buffer = some out ∧
      ∀ a, Summary.TotalPhysBytes ≤ a → a < headerSize → out a = writeHeader env buf a := by
  cases hq : queryProcessList env.processQueries initialBufferLength with
  | retrying =>
    refine ⟨writeHeader env buf, ?_, fun _ _ _ => rfl⟩
    simp only [SqlmemEnumerateProcesses, Nat.not_lt.mpr hsum, hq, ite_false]
  | done status info =>
    cases info with
    | none =>
      refine ⟨writeHeader env buf, ?_, fun _ _ _ => rfl⟩
      simp only [SqlmemEnumerateProcesses, Nat.not_lt.mpr hsum, hq, ite_false]
    | some p =>
      obtain ⟨first, rest⟩ := p
      by_cases hs : NT_SUCCESS status = true
      · rw [enumerate_walk env buf C bw status first rest hsum hq hs]
        have hf := walk_frame env C hC rest first ⟨writeHeader env buf, 0, status⟩
          (by simp only [summarySize, headerSize, entrySize] at *; omega)
        simp only [Nat.zero_mul, Nat.add_zero] at hf
        split
        · refine ⟨_, rfl, ?_⟩
          intro a ha1 ha2
          rw [storeLE_outside _ _ _ _ _
            (by simp only [Summary.ProcessCount, Summary.TotalPhysBytes] at *; omega),
            hf a (Or.inl ha2)]
        · exact ⟨_, rfl, fun a _ ha2 => hf a (Or.inl ha2)⟩
      · refine ⟨writeHeader env buf, ?_, fun _ _ _ => rfl⟩
        simp only [SqlmemEnumerateProcesses, Nat.not_lt.mpr hsum, hq, ite_false, hs,
          Bool.not_false, Bool.not_true, ite_true]

/-- After a call that passed the size check, the `TotalPhysBytes` field of the header holds the
value the collector computed. -/
theorem enumerate_TotalPhysBytes (env : Env) (buf : Mem) (C bw : Nat) (hC : C < 2 ^ 32)
    (hsum : summarySize ≤ C) :
    ∃ out, (SqlmemEnumerateProcesses env (some buf) C (some bw)).buffer = some out ∧
      loadLE out Summary.TotalPhysBytes 8 = totalPhysBytes env := by
  obtain ⟨out, ho, hh⟩ := enumerate_header env buf C bw hC hsum
  refine ⟨out, ho, ?_⟩
  rw [loadLE_congr out (writeHeader env buf) Summary.TotalPhysBytes 8
    (fun a h1 h2 => hh a h1 (by simp only [Summary.TotalPhysBytes, headerSize] at *; omega)),
    writeHeader_TotalPhysBytes]
  exact Nat.mod_eq_of_lt (totalPhysBytes_lt env)

theorem walk_status_env (env1 env2 : Env) (C : Nat) (rest : List SYSTEM_PROCESS_INFORMATION) :
    ∀ (spi : SYSTEM_PROCESS_INFORMATION) (s1 s2 : WalkState),
      s1.processCount = s2.processCount → s1.status = s2.status →
      (walk env1 C spi rest s1).status = (walk env2 C spi rest s2).status ∧
        (walk env1 C spi rest s1).processCount = (walk env2 C spi rest s2).processCount := by
  induction rest with
  | nil =>
    intro spi s1 s2 h1 h2
    rw [walk_nil, walk_nil, h1]
    split <;> simp [h2]
  | cons next rest ih =>
    intro spi s1 s2 h1 h2
    rw [walk_cons, walk_cons, h1]
    split
    · simp
    · exact ih next _ _ rfl h2

/-- The status and the byte count of a call do not depend on what the process lookups answer. -/
theorem enumerate_status_lookup (env : Env) (lookup : Nat → Lookup) (buf : Option Mem) (C : Nat)
    (bw : Option Nat) :
    (SqlmemEnumerateProcesses { env with lookupProcess := lookup } buf C bw).status =
        (SqlmemEnumerateProcesses env buf C bw).status ∧
      (SqlmemEnumerateProcesses { env with lookupProcess := lookup } buf C bw).bytesWritten =
        (SqlmemEnumerateProcesses env buf C bw).bytesWritten := by
  cases buf with
  | none => simp [SqlmemEnumerateProcesses]
  | some m =>
    cases bw with
    | none => simp [SqlmemEnumerateProcesses]
    | some b =>
      by_cases hsum : C < summarySize
      · rw [enumerate_small _ m C b hsum, enumerate_small _ m C b hsum]
        exact ⟨rfl, rfl⟩
      · have hsum := Nat.not_lt.mp hsum
        cases hq : queryProcessList env.processQueries initialBufferLength with
        | retrying =>
          simp only [SqlmemEnumerateProcesses, Nat.not_lt.mpr hsum, hq, ite_false, and_self]
        | done status info =>
          cases info with
          | none =>
            simp only [SqlmemEnumerateProcesses, Nat.not_lt.mpr hsum, hq, ite_false, and_self]
          | some p =>
            obtain ⟨first, rest⟩ := p
            by_cases hs : NT_SUCCESS status = true
            · rw [enumerate_walk { env with lookupProcess := lookup } m C b status first rest hsum
                hq hs, enumerate_walk env m C b status first rest hsum hq hs]
              obtain ⟨e1, e2⟩ := walk_status_env { env with lookupProcess := lookup } env C rest
                first ⟨writeHeader { env with lookupProcess := lookup } m, 0, status⟩
                ⟨writeHeader env m, 0, status⟩ rfl rfl
              rw [e1, e2]
              split <;> exact ⟨rfl, rfl⟩
            · simp only [SqlmemEnumerateProcesses, Nat.not_lt.mpr hsum, hq, ite_false, hs,
                Bool.not_false, Bool.not_true, ite_true, and_self]

theorem attribute_bits (a : Nat) :
    a &&& (SE_PRIVILEGE_ENABLED ||| SE_PRIVILEGE_ENABLED_BY_DEFAULT) ≠ 0 ↔
      (a.testBit 1 = true ∨ a.testBit 0 = true) := by
  have h3 : (SE_PRIVILEGE_ENABLED ||| SE_PRIVILEGE_ENABLED_BY_DEFAULT) = 2 ^ 2 - 1 := by decide
  rw [h3, Nat.and_pow_two_sub_one_eq_mod]
  simp only [Nat.testBit_succ, Nat.testBit_zero, decide_eq_true_eq]
  omega

theorem scanPrivileges_iff (luid : LUID) (privileges : List LUID_AND_ATTRIBUTES) :
    scanPrivileges luid privileges = true ↔
      ∃ p ∈ privileges, p.Luid = luid ∧
        p.Attributes &&& (SE_PRIVILEGE_ENABLED ||| SE_PRIVILEGE_ENABLED_BY_DEFAULT) ≠ 0 := by
  induction privileges with
  | nil => simp [scanPrivileges]
  | cons p ps ih =>
    simp only [scanPrivileges, List.mem_cons, exists_eq_or_imp]
    by_cases h1 : p.Luid = luid
    · by_cases h2 : p.Attributes &&& (SE_PRIVILEGE_ENABLED ||| SE_PRIVILEGE_ENABLED_BY_DEFAULT) ≠ 0
      · simp [h1, h2]
      · simp only [h1, h2, ite_true, ite_false, ih, and_false, false_or, true_and]
    · simp only [h1, ite_false, ih, false_and, false_or]

/-- Whatever the outcome, no byte of the buffer at an offset `C` or above is changed. -/
theorem enumerate_frame (env : Env) (buf : Mem) (C : Nat) (bw : Option Nat) (hC : C < 2 ^ 32) :
    ∀ out, (SqlmemEnumerateProcesses env (some buf) C bw).buffer = some out →
      ∀ a, C ≤ a → out a = buf a := by
  intro out hout a ha
  cases bw with
  | none =>
    simp only [SqlmemEnumerateProcesses, Option.some.injEq] at hout
    rw [← hout]
  | some b =>
    by_cases hsum : C < summarySize
    · rw [enumerate_small env buf C b hsum] at hout
      simp only [Option.some.injEq] at hout
      rw [← hout]
    · have hsum := Nat.not_lt.mp hsum
      have h56 : headerSize ≤ a := by
        simp only [summarySize, headerSize, entrySize] at *; omega
      cases hq : queryProcessList env.processQueries initialBufferLength with
      | retrying =>
        simp only [SqlmemEnumerateProcesses, Nat.not_lt.mpr hsum, hq, ite_false,
          Option.some.injEq] at hout
        rw [← hout, writeHeader_outside env buf a h56]
      | done status info =>
        cases info with
        | none =>
          simp only [SqlmemEnumerateProcesses, Nat.not_lt.mpr hsum, hq, ite_false,
            Option.some.injEq] at hout
          rw [← hout, writeHeader_outside env buf a h56]
        | some p =>
          obtain ⟨first, rest⟩ := p
          by_cases hs : NT_SUCCESS status = true
          · rw [enumerate_walk env buf C b status first rest hsum hq hs] at hout
            have hf := walk_frame env C hC rest first ⟨writeHeader env buf, 0, status⟩
              (by simp only [summarySize, headerSize, entrySize] at *; omega) a (Or.inr ha)
            simp only [] at hf
            split at hout
            · simp only [Option.some.injEq] at hout
              rw [← hout, storeLE_outside _ _ _ _ _
                (by simp only [Summary.ProcessCount, headerSize] at *; omega), hf,
                writeHeader_outside env buf a h56]
            · simp only [Option.some.injEq] at hout
              rw [← hout, hf, writeHeader_outside env buf a h56]
          · simp only [SqlmemEnumerateProcesses, Nat.not_lt.mpr hsum, hq, ite_false, hs,
              Bool.not_false, Bool.not_true, ite_true, Option.some.injEq] at hout
            rw [← hout, writeHeader_outside env buf a h56]

theorem enumerate_buffer_some (env : Env) (buf : Mem) (C : Nat) (bw : Option Nat) :
    ∃ out, (SqlmemEnumerateProcesses env (some buf) C bw).buffer = some out := by
  unfold SqlmemEnumerateProcesses
  cases bw with
  | none => exact ⟨_, rfl⟩
  | some b =>
    simp only []
    split
    · exact ⟨_, rfl⟩
    · split
      · exact ⟨_, rfl⟩
      · exact ⟨_, rfl⟩
      · split
        · exact ⟨_, rfl⟩
        · split <;> exact ⟨_, rfl⟩

/-! ## The claims -/

/-- C1: for a non-null output buffer of capacity `C` and a process list of `K = rest.length + 1`
records obtained with a success status, if `headerSize + K * entrySize ≤ C` then
`SqlmemEnumerateProcesses` returns that success status, `BytesWritten` is
`headerSize + K * entrySize` and the `ProcessCount` field of the header reads `K`. -/
theorem C1_all_records_fit (env : Env) (buf : Mem) (C bw status : Nat)
    (first : SYSTEM_PROCESS_INFORMATION) (rest : List SYSTEM_PROCESS_INFORMATION)
    (hC : C < 2 ^ 32)
    (hq : queryProcessList env.processQueries initialBufferLength =
      Acquired.done status (some (first, rest)))
    (hs : NT_SUCCESS status = true)
    (hfit : headerSize + (rest.length + 1) * entrySize ≤ C) :
    ∃ out, SqlmemEnumerateProcesses env (some buf) C (some bw) =
        ⟨some status, some out, some (headerSize + (rest.length + 1) * entrySize)⟩ ∧
      loadLE out Summary.ProcessCount 4 = rest.length + 1 := by
  have hsum : summarySize ≤ C := by
    simp only [summarySize, headerSize, entrySize] at *; omega
  have hw := walk_fits env C hC rest first ⟨writeHeader env buf, 0, status⟩
    (by simp only [headerSize, entrySize] at *; omega)
  simp only [Nat.zero_add] at hw
  obtain ⟨hst, hpc⟩ := hw
  rw [enumerate_walk env buf C bw status first rest hsum hq hs, hst, hpc, if_pos hs]
  refine ⟨storeLE (walk env C first rest ⟨writeHeader env buf, 0, status⟩).buffer
    Summary.ProcessCount 4 (1 + rest.length), ?_, ?_⟩
  · have e : (headerSize + (1 + rest.length) * entrySize) % 2 ^ 64 % 2 ^ 32
        = headerSize + (rest.length + 1) * entrySize := by
      simp only [headerSize, entrySize] at *; omega
    rw [e]
  · rw [loadLE_storeLE]
    simp only [headerSize, entrySize] at *
    omega

/-- A sample of C1: two records and a capacity of exactly `headerSize + 2 * entrySize`. -/
theorem C1_all_records_fit_witness :
    ∃ out, SqlmemEnumerateProcesses
        (sampleEnv (sampleRecord 0 ⟨0, none⟩) [sampleRecord 4 (ofString "sqlservr.exe")])
        (some sentinelBuffer) 408 (some 7) =
        ⟨some STATUS_SUCCESS, some out,
          some (headerSize + ([sampleRecord 4 (ofString "sqlservr.exe")].length + 1) * entrySize)⟩ ∧
      loadLE out Summary.ProcessCount 4 =
        [sampleRecord 4 (ofString "sqlservr.exe")].length + 1 :=
  C1_all_records_fit
    (sampleEnv (sampleRecord 0 ⟨0, none⟩) [sampleRecord 4 (ofString "sqlservr.exe")])
    sentinelBuffer 408 7 STATUS_SUCCESS (sampleRecord 0 ⟨0, none⟩)
    [sampleRecord 4 (ofString "sqlservr.exe")] (by decide) rfl rfl (by decide)

/-- C2: when only `M < K` entries fit into the capacity `C` of a non-null buffer
(`headerSize + M * entrySize ≤ C < headerSize + (M + 1) * entrySize`, the process list of
`K = rest.length + 1` records being the one the query obtains), `SqlmemEnumerateProcesses`
returns `STATUS_BUFFER_TOO_SMALL`, the get-summary request completes with that status and a
byte count of 0, and every buffer byte at an offset from `headerSize + M * entrySize` on has the
value it had before the call. -/
theorem C2_truncation (env : Env) (buf : Mem) (C M status : Nat)
    (first : SYSTEM_PROCESS_INFORMATION) (rest : List SYSTEM_PROCESS_INFORMATION)
    (hC : C < 2 ^ 32)
    (hq : queryProcessList env.processQueries initialBufferLength =
      Acquired.done status (some (first, rest)))
    (hs : NT_SUCCESS status = true)
    (hMK : M < rest.length + 1)
    (hM1 : headerSize + M * entrySize ≤ C) (hM2 : C < headerSize + (M + 1) * entrySize) :
    ∃ out, SqlmemDeviceControl env ⟨IOCTL_SQLMEM_GET_SUMMARY, C, some buf⟩ =
        ⟨some ⟨STATUS_BUFFER_TOO_SMALL, 0⟩, some out⟩ ∧
      (∀ bw, (SqlmemEnumerateProcesses env (some buf) C (some bw)).status =
          some STATUS_BUFFER_TOO_SMALL ∧
        (SqlmemEnumerateProcesses env (some buf) C (some bw)).buffer = some out) ∧
      ∀ a, headerSize + M * entrySize ≤ a → out a = buf a := by
  have hsmall : NT_SUCCESS STATUS_BUFFER_TOO_SMALL = false := by decide
  by_cases hsum : C < summarySize
  · refine ⟨buf, ?_, ?_, fun a _ => rfl⟩
    · simp [SqlmemDeviceControl, SqlmemCaptureSummary, enumerate_small env buf C 0 hsum]
    · intro bw
      rw [enumerate_small env buf C bw hsum]
      exact ⟨rfl, rfl⟩
  · have hsum := Nat.not_lt.mp hsum
    have hw := walk_truncated env C M hC hM1 hM2 rest first ⟨writeHeader env buf, 0, status⟩
      (Nat.zero_le _) (by simp only []; omega)
    obtain ⟨hst, hframe⟩ := hw
    refine ⟨(walk env C first rest ⟨writeHeader env buf, 0, status⟩).buffer, ?_, ?_, ?_⟩
    · simp [SqlmemDeviceControl, SqlmemCaptureSummary,
        enumerate_walk env buf C 0 status first rest hsum hq hs, hst, hsmall]
    · intro bw
      simp [enumerate_walk env buf C bw status first rest hsum hq hs, hst, hsmall]
    · intro a ha
      rw [hframe a ha]
      exact writeHeader_outside env buf a (by simp only [headerSize, entrySize] at *; omega)

/-- A sample of C2: two records and a capacity one byte short of the second entry. -/
theorem C2_truncation_witness :
    ∃ out, SqlmemDeviceControl
        (sampleEnv (sampleRecord 0 ⟨0, none⟩) [sampleRecord 4 (ofString "sqlservr.exe")])
        ⟨IOCTL_SQLMEM_GET_SUMMARY, 407, some sentinelBuffer⟩ =
        ⟨some ⟨STATUS_BUFFER_TOO_SMALL, 0⟩, some out⟩ ∧
      (∀ bw, (SqlmemEnumerateProcesses
          (sampleEnv (sampleRecord 0 ⟨0, none⟩) [sampleRecord 4 (ofString "sqlservr.exe")])
          (some sentinelBuffer) 407 (some bw)).status = some STATUS_BUFFER_TOO_SMALL ∧
        (SqlmemEnumerateProcesses
          (sampleEnv (sampleRecord 0 ⟨0, none⟩) [sampleRecord 4 (ofString "sqlservr.exe")])
          (some sentinelBuffer) 407 (some bw)).buffer = some out) ∧
      ∀ a, headerSize + 1 * entrySize ≤ a → out a = sentinelBuffer a :=
  C2_truncation
    (sampleEnv (sampleRecord 0 ⟨0, none⟩) [sampleRecord 4 (ofString "sqlservr.exe")])
    sentinelBuffer 407 1 STATUS_SUCCESS (sampleRecord 0 ⟨0, none⟩)
    [sampleRecord 4 (ofString "sqlservr.exe")] (by decide) rfl rfl (by decide) (by decide)
    (by decide)

/-- C3 as stated fails: a get-summary request with a null system buffer and a declared capacity
of 0, below the header size, completes with `STATUS_INVALID_PARAMETER`, which is not
`STATUS_BUFFER_TOO_SMALL`. -/
theorem C3_counterexample :
    0 < headerSize ∧
    (SqlmemDeviceControl (sampleEnv (sampleRecord 0 ⟨0, none⟩) [])
        ⟨IOCTL_SQLMEM_GET_SUMMARY, 0, none⟩).IoStatus.map (fun io => io.Status)
      = some STATUS_INVALID_PARAMETER ∧
    STATUS_INVALID_PARAMETER ≠ STATUS_BUFFER_TOO_SMALL := by
  refine ⟨by decide, rfl, by decide⟩

/-- C3, amended: a get-summary request whose declared capacity `C` is smaller than the header
size completes with `STATUS_BUFFER_TOO_SMALL` and a byte count of 0 when the system buffer is
non-null (the buffer is left as it was), and with `STATUS_INVALID_PARAMETER` and a byte count of
0 when the system buffer is null. -/
theorem C3_capacity_below_header (env : Env) (C : Nat) (hC : C < headerSize) :
    (∀ buf, SqlmemDeviceControl env ⟨IOCTL_SQLMEM_GET_SUMMARY, C, some buf⟩ =
      ⟨some ⟨STATUS_BUFFER_TOO_SMALL, 0⟩, some buf⟩) ∧
    SqlmemDeviceControl env ⟨IOCTL_SQLMEM_GET_SUMMARY, C, none⟩ =
      ⟨some ⟨STATUS_INVALID_PARAMETER, 0⟩, none⟩ := by
  have hsum : C < summarySize := by
    simp only [summarySize, headerSize, entrySize] at *; omega
  constructor
  · intro buf
    simp [SqlmemDeviceControl, SqlmemCaptureSummary, enumerate_small env buf C 0 hsum]
  · simp [SqlmemDeviceControl, SqlmemCaptureSummary, SqlmemEnumerateProcesses]

/-- A sample of the amended C3: a capacity of 40 bytes. -/
theorem C3_capacity_below_header_witness :
    (∀ buf, SqlmemDeviceControl (sampleEnv (sampleRecord 0 ⟨0, none⟩) [])
        ⟨IOCTL_SQLMEM_GET_SUMMARY, 40, some buf⟩ =
      ⟨some ⟨STATUS_BUFFER_TOO_SMALL, 0⟩, some buf⟩) ∧
    SqlmemDeviceControl (sampleEnv (sampleRecord 0 ⟨0, none⟩) [])
        ⟨IOCTL_SQLMEM_GET_SUMMARY, 40, none⟩ =
      ⟨some ⟨STATUS_INVALID_PARAMETER, 0⟩, none⟩ :=
  C3_capacity_below_header (sampleEnv (sampleRecord 0 ⟨0, none⟩) []) 40 (by decide)

/-- C4: for every declared capacity `C` (a `ULONG`), every machine and every outcome of
`SqlmemEnumerateProcesses`, no byte of the buffer at an offset `C` or above is changed; and the
walk, started on the header with any record chain, ends with `N` entries written where
`headerSize + N * entrySize ≤ C` and no byte changed from `headerSize + N * entrySize` on.
Every state the walk passes through is the end state of the walk over a shorter chain, so the
bound holds at every point. -/
theorem C4_writes_stay_below_capacity (env : Env) (buf : Mem) (C : Nat) (bw : Option Nat)
    (hC : C < 2 ^ 32) :
    (∃ out, (SqlmemEnumerateProcesses env (some buf) C bw).buffer = some out ∧
      ∀ a, C ≤ a → out a = buf a) ∧
    (∀ (first : SYSTEM_PROCESS_INFORMATION) (rest : List SYSTEM_PROCESS_INFORMATION)
      (status : Nat) (m : Mem), NT_SUCCESS status = true → headerSize ≤ C →
      headerSize + entriesWritten (walk env C first rest ⟨m, 0, status⟩) * entrySize ≤ C ∧
      ∀ a, headerSize + entriesWritten (walk env C first rest ⟨m, 0, status⟩) * entrySize ≤ a →
        (walk env C first rest ⟨m, 0, status⟩).buffer a = m a) := by
  constructor
  · obtain ⟨out, ho⟩ := enumerate_buffer_some env buf C bw
    exact ⟨out, ho, enumerate_frame env buf C bw hC out ho⟩
  · intro first rest status m hs h56
    have := walk_written env C hC rest first ⟨m, 0, status⟩
      (by simp only [headerSize, entrySize] at *; omega) hs
    exact ⟨this.1, this.2.2⟩

/-- A sample of C4: a capacity of 300 bytes holds one entry of the two records. -/
theorem C4_writes_stay_below_capacity_witness :
    (∃ out, (SqlmemEnumerateProcesses
        (sampleEnv (sampleRecord 0 ⟨0, none⟩) [sampleRecord 4 (ofString "sqlservr.exe")])
        (some sentinelBuffer) 300 (some 0)).buffer = some out ∧
      ∀ a, 300 ≤ a → out a = sentinelBuffer a) ∧
    (headerSize + entriesWritten (walk
        (sampleEnv (sampleRecord 0 ⟨0, none⟩) [sampleRecord 4 (ofString "sqlservr.exe")])
        300 (sampleRecord 0 ⟨0, none⟩) [sampleRecord 4 (ofString "sqlservr.exe")]
        ⟨sentinelBuffer, 0, STATUS_SUCCESS⟩) * entrySize ≤ 300 ∧
      ∀ a, headerSize + entriesWritten (walk
        (sampleEnv (sampleRecord 0 ⟨0, none⟩) [sampleRecord 4 (ofString "sqlservr.exe")])
        300 (sampleRecord 0 ⟨0, none⟩) [sampleRecord 4 (ofString "sqlservr.exe")]
        ⟨sentinelBuffer, 0, STATUS_SUCCESS⟩) * entrySize ≤ a →
        (walk (sampleEnv (sampleRecord 0 ⟨0, none⟩) [sampleRecord 4 (ofString "sqlservr.exe")])
          300 (sampleRecord 0 ⟨0, none⟩) [sampleRecord 4 (ofString "sqlservr.exe")]
          ⟨sentinelBuffer, 0, STATUS_SUCCESS⟩).buffer a = sentinelBuffer a) :=
  ⟨(C4_writes_stay_below_capacity
      (sampleEnv (sampleRecord 0 ⟨0, none⟩) [sampleRecord 4 (ofString "sqlservr.exe")])
      sentinelBuffer 300 (some 0) (by decide)).1,
    (C4_writes_stay_below_capacity
      (sampleEnv (sampleRecord 0 ⟨0, none⟩) [sampleRecord 4 (ofString "sqlservr.exe")])
      sentinelBuffer 300 (some 0) (by decide)).2 (sampleRecord 0 ⟨0, none⟩)
      [sampleRecord 4 (ofString "sqlservr.exe")] STATUS_SUCCESS sentinelBuffer rfl (by decide)⟩

/-- C5: for every record that is written and every well-formed image name of any length, the
`IsSqlServer` byte of the entry is 1 exactly when the text after the last backslash, forward
slash or colon equals `sqlservr.exe` ignoring case (and 0 otherwise), and the `IsVmmemOrVm` byte
is 1 exactly when that base name equals `vmmem` or `vmwp.exe` ignoring case. In particular the
comparison holds for `C:\Program Files\MSSQL\sqlservr.exe`, `SQLSERVR.EXE` and `sqlservr.exe`
and fails for `notsqlservr.exe`, whatever the upcase table. -/
theorem C5_classification (env : Env) (buf : Mem) (C bw status : Nat)
    (first : SYSTEM_PROCESS_INFORMATION) (rest : List SYSTEM_PROCESS_INFORMATION)
    (hC : C < 2 ^ 32)
    (hq : queryProcessList env.processQueries initialBufferLength =
      Acquired.done status (some (first, rest)))
    (hs : NT_SUCCESS status = true)
    (i : Nat) (r : SYSTEM_PROCESS_INFORMATION) (hr : (first :: rest)[i]? = some r)
    (hfit : entryOffset (i + 1) ≤ C) (hwf : WellFormed r.ImageName) :
    (∃ out, (SqlmemEnumerateProcesses env (some buf) C (some bw)).buffer = some out ∧
      out (entryOffset i + Entry.IsSqlServer) =
        (if eqIgnoreCase env.upcaseTable (baseNameSpec (nameChars r.ImageName)) L_sqlservr_exe
          then 1 else 0) ∧
      out (entryOffset i + Entry.IsVmmemOrVm) =
        (if eqIgnoreCase env.upcaseTable (baseNameSpec (nameChars r.ImageName)) L_vmmem ||
            eqIgnoreCase env.upcaseTable (baseNameSpec (nameChars r.ImageName)) L_vmwp_exe
          then 1 else 0)) ∧
    (∀ table : Nat → Nat,
      SqlmemImageNameEquals table (some (ofString "C:\\Program Files\\MSSQL\\sqlservr.exe"))
        L_sqlservr_exe = true ∧
      SqlmemImageNameEquals table (some (ofString "SQLSERVR.EXE")) L_sqlservr_exe = true ∧
      SqlmemImageNameEquals table (some (ofString "sqlservr.exe")) L_sqlservr_exe = true ∧
      SqlmemImageNameEquals table (some (ofString "notsqlservr.exe")) L_sqlservr_exe = false) := by
  constructor
  · obtain ⟨out, ho, hslot⟩ := enumerate_entry env buf C bw status first rest hC hq hs i r hr hfit
    have hidx := entry_count_lt i C hC hfit
    refine ⟨out, ho, ?_, ?_⟩
    · rw [hslot buf _
        (by simp only [entryOffset, headerSize, entrySize, Entry.IsSqlServer]; omega)
        (by simp only [entryOffset, headerSize, entrySize, Entry.IsSqlServer]; omega),
        writeEntry_IsSqlServer env buf i r hidx,
        imageNameEquals_eq env.upcaseTable r.ImageName L_sqlservr_exe hwf (by decide) (by decide)]
    · rw [hslot buf _
        (by simp only [entryOffset, headerSize, entrySize, Entry.IsVmmemOrVm]; omega)
        (by simp only [entryOffset, headerSize, entrySize, Entry.IsVmmemOrVm]; omega),
        writeEntry_IsVmmemOrVm env buf i r hidx,
        imageNameEquals_eq env.upcaseTable r.ImageName L_vmmem hwf (by decide) (by decide),
        imageNameEquals_eq env.upcaseTable r.ImageName L_vmwp_exe hwf (by decide) (by decide)]
  · intro table
    exact ⟨rfl, rfl, rfl, rfl⟩

/-- A sample of C5: the second record carries a path of 75 characters, longer than the 63
characters the entry stores. -/
theorem C5_classification_witness :
    (∃ out, (SqlmemEnumerateProcesses
        (sampleEnv (sampleRecord 0 ⟨0, none⟩) [sampleRecord 4 (ofString
          "C:\\Program Files\\Microsoft SQL Server\\MSSQL16.MSSQLSERVER\\Binn\\SqlServr.EXE")])
        (some sentinelBuffer) 408 (some 0)).buffer = some out ∧
      out (entryOffset 1 + Entry.IsSqlServer) =
        (if eqIgnoreCase
            (sampleEnv (sampleRecord 0 ⟨0, none⟩) [sampleRecord 4 (ofString
              "C:\\Program Files\\Microsoft SQL Server\\MSSQL16.MSSQLSERVER\\Binn\\SqlServr.EXE")]).upcaseTable
            (baseNameSpec (nameChars (sampleRecord 4 (ofString
              "C:\\Program Files\\Microsoft SQL Server\\MSSQL16.MSSQLSERVER\\Binn\\SqlServr.EXE")).ImageName))
            L_sqlservr_exe
          then 1 else 0) ∧
      out (entryOffset 1 + Entry.IsVmmemOrVm) =
        (if eqIgnoreCase
            (sampleEnv (sampleRecord 0 ⟨0, none⟩) [sampleRecord 4 (ofString
              "C:\\Program Files\\Microsoft SQL Server\\MSSQL16.MSSQLSERVER\\Binn\\SqlServr.EXE")]).upcaseTable
            (baseNameSpec (nameChars (sampleRecord 4 (ofString
              "C:\\Program Files\\Microsoft SQL Server\\MSSQL16.MSSQLSERVER\\Binn\\SqlServr.EXE")).ImageName))
            L_vmmem ||
            eqIgnoreCase
            (sampleEnv (sampleRecord 0 ⟨0, none⟩) [sampleRecord 4 (ofString
              "C:\\Program Files\\Microsoft SQL Server\\MSSQL16.MSSQLSERVER\\Binn\\SqlServr.EXE")]).upcaseTable
            (baseNameSpec (nameChars (sampleRecord 4 (ofString
              "C:\\Program Files\\Microsoft SQL Server\\MSSQL16.MSSQLSERVER\\Binn\\SqlServr.EXE")).ImageName))
            L_vmwp_exe
          then 1 else 0)) ∧
    (∀ table : Nat → Nat,
      SqlmemImageNameEquals table (some (ofString "C:\\Program Files\\MSSQL\\sqlservr.exe"))
        L_sqlservr_exe = true ∧
      SqlmemImageNameEquals table (some (ofString "SQLSERVR.EXE")) L_sqlservr_exe = true ∧
      SqlmemImageNameEquals table (some (ofString "sqlservr.exe")) L_sqlservr_exe = true ∧
      SqlmemImageNameEquals table (some (ofString "notsqlservr.exe")) L_sqlservr_exe = false) :=
  C5_classification
    (sampleEnv (sampleRecord 0 ⟨0, none⟩) [sampleRecord 4 (ofString
      "C:\\Program Files\\Microsoft SQL Server\\MSSQL16.MSSQLSERVER\\Binn\\SqlServr.EXE")])
    sentinelBuffer 408 0 STATUS_SUCCESS (sampleRecord 0 ⟨0, none⟩)
    [sampleRecord 4 (ofString
      "C:\\Program Files\\Microsoft SQL Server\\MSSQL16.MSSQLSERVER\\Binn\\SqlServr.EXE")]
    (by decide) rfl rfl 1 _ rfl (by decide)
    ⟨by decide, fun buffer hb => by cases hb; decide⟩

/-- C6: for every record that is written and whose source image name is empty (null buffer or
zero length), the `ImageName` array of the entry holds the literal `<System>` followed by NULs,
and the `IsSqlServer` and `IsVmmemOrVm` bytes are 0. -/
theorem C6_empty_image_name (env : Env) (buf : Mem) (C bw status : Nat)
    (first : SYSTEM_PROCESS_INFORMATION) (rest : List SYSTEM_PROCESS_INFORMATION)
    (hC : C < 2 ^ 32)
    (hq : queryProcessList env.processQueries initialBufferLength =
      Acquired.done status (some (first, rest)))
    (hs : NT_SUCCESS status = true)
    (i : Nat) (r : SYSTEM_PROCESS_INFORMATION) (hr : (first :: rest)[i]? = some r)
    (hfit : entryOffset (i + 1) ≤ C)
    (hempty : r.ImageName.Buffer = none ∨ r.ImageName.Length = 0) :
    ∃ out, (SqlmemEnumerateProcesses env (some buf) C (some bw)).buffer = some out ∧
      (∀ j, j < 64 →
        loadWCHAR out (entryOffset i + Entry.ImageName) j = (L_System ++ [0]).getD j 0) ∧
      out (entryOffset i + Entry.IsSqlServer) = 0 ∧
      out (entryOffset i + Entry.IsVmmemOrVm) = 0 := by
  obtain ⟨out, ho, hslot⟩ := enumerate_entry env buf C bw status first rest hC hq hs i r hr hfit
  have hidx := entry_count_lt i C hC hfit
  refine ⟨out, ho, ?_, ?_, ?_⟩
  · intro j hj
    rw [loadWCHAR_congr out (writeEntry env buf (i + 1) r) _ j
      (fun a h1 h2 => hslot buf a
        (by simp only [entryOffset, headerSize, entrySize, Entry.ImageName] at *; omega)
        (by simp only [entryOffset, headerSize, entrySize, Entry.ImageName] at *; omega)),
      writeEntry_ImageName env buf i r hidx j hj, imageNameChars_empty r.ImageName hempty]
    apply Nat.mod_eq_of_lt
    by_cases h9 : j < 9
    · interval_cases j <;> decide
    · rw [List.getD_eq_default _ _ (by simp only [L_System, List.length_append,
        List.length_cons, List.length_nil]; omega)]
      decide
  · rw [hslot buf _
      (by simp only [entryOffset, headerSize, entrySize, Entry.IsSqlServer]; omega)
      (by simp only [entryOffset, headerSize, entrySize, Entry.IsSqlServer]; omega),
      writeEntry_IsSqlServer env buf i r hidx, imageNameEquals_empty _ _ _ hempty]
    rfl
  · rw [hslot buf _
      (by simp only [entryOffset, headerSize, entrySize, Entry.IsVmmemOrVm]; omega)
      (by simp only [entryOffset, headerSize, entrySize, Entry.IsVmmemOrVm]; omega),
      writeEntry_IsVmmemOrVm env buf i r hidx, imageNameEquals_empty _ _ _ hempty,
      imageNameEquals_empty _ _ _ hempty]
    rfl

/-- A sample of C6: the first record has a null image name. -/
theorem C6_empty_image_name_witness :
    ∃ out, (SqlmemEnumerateProcesses
        (sampleEnv (sampleRecord 0 ⟨0, none⟩) [sampleRecord 4 (ofString "sqlservr.exe")])
        (some sentinelBuffer) 408 (some 0)).buffer = some out ∧
      (∀ j, j < 64 →
        loadWCHAR out (entryOffset 0 + Entry.ImageName) j = (L_System ++ [0]).getD j 0) ∧
      out (entryOffset 0 + Entry.IsSqlServer) = 0 ∧
      out (entryOffset 0 + Entry.IsVmmemOrVm) = 0 :=
  C6_empty_image_name
    (sampleEnv (sampleRecord 0 ⟨0, none⟩) [sampleRecord 4 (ofString "sqlservr.exe")])
    sentinelBuffer 408 0 STATUS_SUCCESS (sampleRecord 0 ⟨0, none⟩)
    [sampleRecord 4 (ofString "sqlservr.exe")] (by decide) rfl rfl 0 _ rfl (by decide)
    (Or.inl rfl)

/-- C7 as stated fails: the range list holds one range that is not the sentinel (base `0x1000`,
length 0), the sum of the range lengths is 0, and the header reports the fallback value of one
page, 4096 bytes. -/
theorem C7_counterexample :
    zeroLengthRangeEnv.physicalRanges = some [⟨0x1000, 0⟩, ⟨0, 0⟩] ∧
    specRangeBytes zeroLengthRangeEnv.physicalRanges = 0 ∧
    ∃ out, (SqlmemEnumerateProcesses zeroLengthRangeEnv (some sentinelBuffer) 232 (some 0)).buffer
        = some out ∧
      loadLE out Summary.TotalPhysBytes 8 = 4096 ∧
      loadLE out Summary.TotalPhysBytes 8 ≠ specRangeBytes zeroLengthRangeEnv.physicalRanges := by
  refine ⟨rfl, by decide, ?_⟩
  obtain ⟨out, ho, ht⟩ :=
    enumerate_TotalPhysBytes zeroLengthRangeEnv sentinelBuffer 232 0 (by decide) (by decide)
  refine ⟨out, ho, ?_, ?_⟩
  · rw [ht]
    decide
  · rw [ht]
    decide

/-- C7, amended: after a call that passed the size check, the `TotalPhysBytes` field of the
header equals the sum of the byte lengths of the physical ranges up to the sentinel, reduced to
64 bits, whenever that sum is not zero; when it is zero (range list unavailable, empty, or made
of zero-length ranges) the field equals the basic-information page count times the page size if
that query succeeds, and zero if it fails. -/
theorem C7_total_phys_bytes (env : Env) (buf : Mem) (C bw : Nat) (hC : C < 2 ^ 32)
    (hsum : summarySize ≤ C) :
    ∃ out, (SqlmemEnumerateProcesses env (some buf) C (some bw)).buffer = some out ∧
      (specRangeBytes env.physicalRanges % 2 ^ 64 ≠ 0 →
        loadLE out Summary.TotalPhysBytes 8 = specRangeBytes env.physicalRanges % 2 ^ 64) ∧
      (specRangeBytes env.physicalRanges % 2 ^ 64 = 0 → NT_SUCCESS env.basicStatus = true →
        loadLE out Summary.TotalPhysBytes 8 = env.NumberOfPhysicalPages % 2 ^ 32 * PAGE_SIZE) ∧
      (specRangeBytes env.physicalRanges % 2 ^ 64 = 0 → NT_SUCCESS env.basicStatus = false →
        loadLE out Summary.TotalPhysBytes 8 = 0) := by
  obtain ⟨out, ho, ht⟩ := enumerate_TotalPhysBytes env buf C bw hC hsum
  refine ⟨out, ho, ?_, ?_, ?_⟩
  · intro h
    rw [ht, totalPhysBytes, rangeTotal_eq, if_neg h]
  · intro h hb
    rw [ht, totalPhysBytes, rangeTotal_eq, if_pos h, if_pos hb]
    simp only [PAGE_SIZE]
    omega
  · intro h hb
    rw [ht, totalPhysBytes, rangeTotal_eq, if_pos h, hb]
    rfl

/-- Samples of the amended C7: two ranges of `0x9F000` and `0x3FF00000` bytes; no range list and
262144 pages; no range list and a failing basic-information query. -/
theorem C7_total_phys_bytes_witness :
    (∃ out, (SqlmemEnumerateProcesses (sampleEnv (sampleRecord 0 ⟨0, none⟩) [])
        (some sentinelBuffer) 232 (some 0)).buffer = some out ∧
      loadLE out Summary.TotalPhysBytes 8 = 0x9F000 + 0x3FF00000) ∧
    (∃ out, (SqlmemEnumerateProcesses noRangeEnv (some sentinelBuffer) 232 (some 0)).buffer
        = some out ∧
      loadLE out Summary.TotalPhysBytes 8 = 262144 * 4096) ∧
    (∃ out, (SqlmemEnumerateProcesses noRangeNoBasicEnv (some sentinelBuffer) 232
        (some 0)).buffer = some out ∧
      loadLE out Summary.TotalPhysBytes 8 = 0) := by
  refine ⟨?_, ?_, ?_⟩
  · obtain ⟨out, ho, h1, _, _⟩ := C7_total_phys_bytes (sampleEnv (sampleRecord 0 ⟨0, none⟩) [])
      sentinelBuffer 232 0 (by decide) (by decide)
    exact ⟨out, ho, h1 (by decide)⟩
  · obtain ⟨out, ho, _, h2, _⟩ := C7_total_phys_bytes noRangeEnv sentinelBuffer 232 0
      (by decide) (by decide)
    exact ⟨out, ho, h2 (by decide) rfl⟩
  · obtain ⟨out, ho, _, _, h3⟩ := C7_total_phys_bytes noRangeNoBasicEnv sentinelBuffer 232 0
      (by decide) (by decide)
    exact ⟨out, ho, h3 (by decide) rfl⟩

/-- C8: `SqlmemProcessHasLockPagesPrivilege` returns true exactly when the process lookup
succeeds, the process has a primary token, the privilege list of the token is obtained, and some
entry of the list has the lock-pages LUID with the enabled or the enabled-by-default bit set; it
returns false whenever the lookup fails; and the status and byte count of the request do not
depend on what the lookups answer. -/
theorem C8_lock_pages_privilege (env : Env) (pid : Nat) :
    (SqlmemProcessHasLockPagesPrivilege env pid = true ↔
      NT_SUCCESS (env.lookupProcess pid).status = true ∧
      ∃ token privileges, (env.lookupProcess pid).process.token = some token ∧
        token.privileges = some privileges ∧ NT_SUCCESS token.queryStatus = true ∧
        ∃ p ∈ privileges, p.Luid = ⟨SE_LOCK_MEMORY_PRIVILEGE, 0⟩ ∧
          (p.Attributes.testBit 1 = true ∨ p.Attributes.testBit 0 = true)) ∧
    (NT_SUCCESS (env.lookupProcess pid).status = false →
      SqlmemProcessHasLockPagesPrivilege env pid = false) ∧
    (∀ (lookup : Nat → Lookup) (buf : Option Mem) (C : Nat) (bw : Option Nat),
      (SqlmemEnumerateProcesses { env with lookupProcess := lookup } buf C bw).status =
        (SqlmemEnumerateProcesses env buf C bw).status ∧
      (SqlmemEnumerateProcesses { env with lookupProcess := lookup } buf C bw).bytesWritten =
        (SqlmemEnumerateProcesses env buf C bw).bytesWritten) := by
  refine ⟨?_, ?_, fun lookup buf C bw => enumerate_status_lookup env lookup buf C bw⟩
  · unfold SqlmemProcessHasLockPagesPrivilege
    simp only []
    by_cases hl : NT_SUCCESS (env.lookupProcess pid).status = true
    · simp only [hl, Bool.not_true, Bool.false_eq_true, ite_false, true_and]
      cases ht : (env.lookupProcess pid).process.token with
      | none => simp
      | some token =>
        cases hp : token.privileges with
        | none => simp [hp]
        | some privileges =>
          by_cases hqs : NT_SUCCESS token.queryStatus = true
          · simp only [hqs, ite_true, scanPrivileges_iff, attribute_bits, RtlConvertUlongToLuid,
              Option.some.injEq, exists_and_left, exists_eq_left', hp, true_and]
          · simp [hqs, hp]
    · simp [hl]
  · intro hl
    simp [SqlmemProcessHasLockPagesPrivilege, hl]

/-- Samples of C8: process 4 of the sample machine holds the privilege, enabled; the lookup of
process 8 fails. -/
theorem C8_lock_pages_privilege_witness :
    SqlmemProcessHasLockPagesPrivilege (sampleEnv (sampleRecord 0 ⟨0, none⟩) []) 4 = true ∧
    SqlmemProcessHasLockPagesPrivilege (sampleEnv (sampleRecord 0 ⟨0, none⟩) []) 8 = false :=
  ⟨(C8_lock_pages_privilege (sampleEnv (sampleRecord 0 ⟨0, none⟩) []) 4).1.mpr
      ⟨rfl, sampleToken, _, rfl, rfl, rfl,
        ⟨⟨SE_LOCK_MEMORY_PRIVILEGE, 0⟩, SE_PRIVILEGE_ENABLED⟩, by simp, rfl, Or.inl rfl⟩,
    (C8_lock_pages_privilege (sampleEnv (sampleRecord 0 ⟨0, none⟩) []) 8).2.1 rfl⟩

/-- C9: for every request code other than the get-summary code, whatever the buffer and its
length, `SqlmemDeviceControl` completes the request with `STATUS_INVALID_DEVICE_REQUEST` and a
byte count of 0 and leaves the buffer as it was; for the get-summary code it completes the
request with the status `SqlmemCaptureSummary` returns and the byte count that call leaves in
`bytesWritten`, and the buffer is the one that call leaves. -/
theorem C9_dispatch (env : Env) (irp : Irp) :
    (irp.IoControlCode ≠ IOCTL_SQLMEM_GET_SUMMARY →
      SqlmemDeviceControl env irp =
        ⟨some ⟨STATUS_INVALID_DEVICE_REQUEST, 0⟩, irp.SystemBuffer⟩) ∧
    (irp.IoControlCode = IOCTL_SQLMEM_GET_SUMMARY →
      ∀ status,
        (SqlmemCaptureSummary env irp.SystemBuffer irp.OutputBufferLength (some 0)).status
          = some status →
        ∃ n,
          (SqlmemCaptureSummary env irp.SystemBuffer irp.OutputBufferLength (some 0)).bytesWritten
            = some n ∧
          SqlmemDeviceControl env irp =
            ⟨some ⟨status, n⟩,
              (SqlmemCaptureSummary env irp.SystemBuffer irp.OutputBufferLength (some 0)).buffer⟩) := by
  constructor
  · intro h
    simp [SqlmemDeviceControl, h]
  · intro h status hst
    have hb : ∃ n, (SqlmemCaptureSummary env irp.SystemBuffer irp.OutputBufferLength
        (some 0)).bytesWritten = some n := by
      unfold SqlmemCaptureSummary SqlmemEnumerateProcesses
      cases irp.SystemBuffer with
      | none => exact ⟨0, rfl⟩
      | some m =>
        simp only []
        split
        · exact ⟨_, rfl⟩
        · split
          · exact ⟨_, rfl⟩
          · exact ⟨_, rfl⟩
          · split
            · exact ⟨_, rfl⟩
            · split <;> exact ⟨_, rfl⟩
    obtain ⟨n, hn⟩ := hb
    refine ⟨n, hn, ?_⟩
    simp [SqlmemDeviceControl, h, hst, hn]

/-- A sample of C9: the request code `0x222000` is not the get-summary code; and a get-summary
request on the sample machine with room for its one record. -/
theorem C9_dispatch_witness :
    (0x222000 ≠ IOCTL_SQLMEM_GET_SUMMARY ∧
      SqlmemDeviceControl (sampleEnv (sampleRecord 0 ⟨0, none⟩) [])
        ⟨0x222000, 4096, some sentinelBuffer⟩ =
        ⟨some ⟨STATUS_INVALID_DEVICE_REQUEST, 0⟩, some sentinelBuffer⟩) ∧
    (∃ n,
      (SqlmemCaptureSummary (sampleEnv (sampleRecord 0 ⟨0, none⟩) []) (some sentinelBuffer) 232
        (some 0)).bytesWritten = some n ∧
      SqlmemDeviceControl (sampleEnv (sampleRecord 0 ⟨0, none⟩) [])
        ⟨IOCTL_SQLMEM_GET_SUMMARY, 232, some sentinelBuffer⟩ =
        ⟨some ⟨STATUS_SUCCESS, n⟩,
          (SqlmemCaptureSummary (sampleEnv (sampleRecord 0 ⟨0, none⟩) []) (some sentinelBuffer)
            232 (some 0)).buffer⟩) :=
  ⟨⟨by decide,
    (C9_dispatch (sampleEnv (sampleRecord 0 ⟨0, none⟩) [])
      ⟨0x222000, 4096, some sentinelBuffer⟩).1 (by decide)⟩,
    (C9_dispatch (sampleEnv (sampleRecord 0 ⟨0, none⟩) [])
      ⟨IOCTL_SQLMEM_GET_SUMMARY, 232, some sentinelBuffer⟩).2 rfl STATUS_SUCCESS rfl⟩

/-- C10: for every record that is written, the `ImageName` array of the entry has a NUL at an
index of at most 63; and when the source image name is non-empty, of `n` UTF-16 code units none
of which is NUL, the array holds the first `min n 63` code units of the source name followed by
a NUL. -/
theorem C10_image_name_copy (env : Env) (buf : Mem) (C bw status : Nat)
    (first : SYSTEM_PROCESS_INFORMATION) (rest : List SYSTEM_PROCESS_INFORMATION)
    (hC : C < 2 ^ 32)
    (hq : queryProcessList env.processQueries initialBufferLength =
      Acquired.done status (some (first, rest)))
    (hs : NT_SUCCESS status = true)
    (i : Nat) (r : SYSTEM_PROCESS_INFORMATION) (hr : (first :: rest)[i]? = some r)
    (hfit : entryOffset (i + 1) ≤ C) :
    ∃ out, (SqlmemEnumerateProcesses env (some buf) C (some bw)).buffer = some out ∧
      (∃ k, k ≤ 63 ∧ loadWCHAR out (entryOffset i + Entry.ImageName) k = 0) ∧
      (∀ (buffer : List Nat) (n : Nat), r.ImageName.Buffer = some buffer →
        r.ImageName.Length = 2 * n → 0 < n → n ≤ buffer.length →
        (∀ j, j < n → buffer.getD j 0 ≠ 0 ∧ buffer.getD j 0 < 65536) →
        (∀ j, j < min n 63 →
          loadWCHAR out (entryOffset i + Entry.ImageName) j = buffer.getD j 0) ∧
        loadWCHAR out (entryOffset i + Entry.ImageName) (min n 63) = 0) := by
  obtain ⟨out, ho, hslot⟩ := enumerate_entry env buf C bw status first rest hC hq hs i r hr hfit
  have hidx := entry_count_lt i C hC hfit
  have hload : ∀ j, j < 64 → loadWCHAR out (entryOffset i + Entry.ImageName) j =
      (imageNameChars r.ImageName).getD j 0 % 65536 := by
    intro j hj
    rw [loadWCHAR_congr out (writeEntry env buf (i + 1) r) _ j
      (fun a h1 h2 => hslot buf a
        (by simp only [entryOffset, headerSize, entrySize, Entry.ImageName] at *; omega)
        (by simp only [entryOffset, headerSize, entrySize, Entry.ImageName] at *; omega)),
      writeEntry_ImageName env buf i r hidx j hj]
  refine ⟨out, ho, ?_, ?_⟩
  · obtain ⟨k, hk, hz⟩ := imageNameChars_terminated r.ImageName
    exact ⟨k, hk, by rw [hload k (by omega), hz]⟩
  · intro buffer n hb hl hn hnb hch
    have hchars := imageNameChars_copy r.ImageName buffer n hb hl hn hnb (fun j hj => (hch j hj).1)
    have hlen : (buffer.take (min n 63)).length = min n 63 := by
      rw [List.length_take]; omega
    constructor
    · intro j hj
      rw [hload j (by omega), hchars, List.getD_append _ _ _ _ (by rw [hlen]; exact hj)]
      have : (buffer.take (min n 63)).getD j 0 = buffer.getD j 0 := by
        simp only [List.getD_eq_getElem?_getD, List.getElem?_take, hj, ite_true]
      rw [this]
      exact Nat.mod_eq_of_lt (hch j (by omega)).2
    · rw [hload _ (by omega), hchars, List.getD_append_right _ _ _ _ (by rw [hlen])]
      simp [hlen]

/-- A sample of C10: the second record is named `sqlservr.exe`, 12 code units. -/
theorem C10_image_name_copy_witness :
    ∃ out, (SqlmemEnumerateProcesses
        (sampleEnv (sampleRecord 0 ⟨0, none⟩) [sampleRecord 4 (ofString "sqlservr.exe")])
        (some sentinelBuffer) 408 (some 0)).buffer = some out ∧
      (∃ k, k ≤ 63 ∧ loadWCHAR out (entryOffset 1 + Entry.ImageName) k = 0) ∧
      (∀ j, j < min 12 63 →
        loadWCHAR out (entryOffset 1 + Entry.ImageName) j = L_sqlservr_exe.getD j 0) ∧
      loadWCHAR out (entryOffset 1 + Entry.ImageName) (min 12 63) = 0 := by
  obtain ⟨out, ho, hk, hcopy⟩ := C10_image_name_copy
    (sampleEnv (sampleRecord 0 ⟨0, none⟩) [sampleRecord 4 (ofString "sqlservr.exe")])
    sentinelBuffer 408 0 STATUS_SUCCESS (sampleRecord 0 ⟨0, none⟩)
    [sampleRecord 4 (ofString "sqlservr.exe")] (by decide) rfl rfl 1 _ rfl (by decide)
  exact ⟨out, ho, hk, hcopy L_sqlservr_exe 12 rfl rfl (by decide) (by decide) (by decide)⟩

end SqlMem
